import Mathlib

set_option maxRecDepth 40000

/-!
# Verification of the Instagram profile monitor's state-tracking core

This file gives a shallow embedding of `src/monitor/monitor.py` and settles
the specification claims about it.

The embedding models:
* JSON values (`Json`) as the program produces them: objects are
  insertion-ordered association lists (Python `dict` semantics), numbers are
  integers (the program only serializes Python `int`s), strings are Unicode
  scalar sequences.
* Python's `json.dump(obj, file, indent=4)` as `dumps` (character-exact,
  including string escaping with `ensure_ascii=True`) and `json.load` as
  `loads`, a whitespace-insensitive parser that rejects trailing data
  ("Extra data") and malformed input.  `loads` is proved to be a left
  inverse of `dumps`.
* The on-disk state as `FS`: an association list from path to raw character
  content, plus the set of created directories.
* Each method of `InstagramMonitor` as a Lean function over `FS` and an
  explicit `MState` mirroring the instance attributes (including the
  dynamically assigned `downloaded_highlights` / `downloaded_stories`
  attributes created by `load_data`, which are distinct from the
  `downloaded_highlights_list` / `downloaded_stories_list` attributes used
  by the reconciler).
* External-provider calls (`instaloader`) as pure parameters (`Provider`)
  and an event trace (`Event`) recording media downloads and metadata-file
  writes.
-/
/-- JSON values as produced/consumed by the monitor.  Objects are
insertion-ordered association lists, matching Python `dict` iteration
order.  Numbers are integers: the monitor only ever serializes Python
`int`s (`userid`, `mediaid`, counts), so float payloads are out of scope
and a file containing a float literal is treated as unparseable by this
model. -/
inductive Json where
  | null : Json
  | bool (b : Bool) : Json
  | num (n : Int) : Json
  | str (s : String) : Json
  | arr (xs : List Json) : Json
  | obj (kvs : List (String × Json)) : Json

mutual

def jsonDecEq : (a b : Json) → Decidable (a = b)
  | .null, .null => .isTrue rfl
  | .bool a, .bool b =>
    match Bool.decEq a b with
    | .isTrue h => .isTrue (by rw [h])
    | .isFalse h => .isFalse (by intro he; injection he; contradiction)
  | .num a, .num b =>
    match Int.decEq a b with
    | .isTrue h => .isTrue (by rw [h])
    | .isFalse h => .isFalse (by intro he; injection he; contradiction)
  | .str a, .str b =>
    match String.decEq a b with
    | .isTrue h => .isTrue (by rw [h])
    | .isFalse h => .isFalse (by intro he; injection he; contradiction)
  | .arr a, .arr b =>
    match jsonListDecEq a b with
    | .isTrue h => .isTrue (by rw [h])
    | .isFalse h => .isFalse (by intro he; injection he; contradiction)
  | .obj a, .obj b =>
    match jsonObjDecEq a b with
    | .isTrue h => .isTrue (by rw [h])
    | .isFalse h => .isFalse (by intro he; injection he; contradiction)
  | .null, .bool _ => .isFalse (fun h => Json.noConfusion h)
  | .null, .num _ => .isFalse (fun h => Json.noConfusion h)
  | .null, .str _ => .isFalse (fun h => Json.noConfusion h)
  | .null, .arr _ => .isFalse (fun h => Json.noConfusion h)
  | .null, .obj _ => .isFalse (fun h => Json.noConfusion h)
  | .bool _, .null => .isFalse (fun h => Json.noConfusion h)
  | .bool _, .num _ => .isFalse (fun h => Json.noConfusion h)
  | .bool _, .str _ => .isFalse (fun h => Json.noConfusion h)
  | .bool _, .arr _ => .isFalse (fun h => Json.noConfusion h)
  | .bool _, .obj _ => .isFalse (fun h => Json.noConfusion h)
  | .num _, .null => .isFalse (fun h => Json.noConfusion h)
  | .num _, .bool _ => .isFalse (fun h => Json.noConfusion h)
  | .num _, .str _ => .isFalse (fun h => Json.noConfusion h)
  | .num _, .arr _ => .isFalse (fun h => Json.noConfusion h)
  | .num _, .obj _ => .isFalse (fun h => Json.noConfusion h)
  | .str _, .null => .isFalse (fun h => Json.noConfusion h)
  | .str _, .bool _ => .isFalse (fun h => Json.noConfusion h)
  | .str _, .num _ => .isFalse (fun h => Json.noConfusion h)
  | .str _, .arr _ => .isFalse (fun h => Json.noConfusion h)
  | .str _, .obj _ => .isFalse (fun h => Json.noConfusion h)
  | .arr _, .null => .isFalse (fun h => Json.noConfusion h)
  | .arr _, .bool _ => .isFalse (fun h => Json.noConfusion h)
  | .arr _, .num _ => .isFalse (fun h => Json.noConfusion h)
  | .arr _, .str _ => .isFalse (fun h => Json.noConfusion h)
  | .arr _, .obj _ => .isFalse (fun h => Json.noConfusion h)
  | .obj _, .null => .isFalse (fun h => Json.noConfusion h)
  | .obj _, .bool _ => .isFalse (fun h => Json.noConfusion h)
  | .obj _, .num _ => .isFalse (fun h => Json.noConfusion h)
  | .obj _, .str _ => .isFalse (fun h => Json.noConfusion h)
  | .obj _, .arr _ => .isFalse (fun h => Json.noConfusion h)

def jsonListDecEq : (a b : List Json) → Decidable (a = b)
  | [], [] => .isTrue rfl
  | [], _ :: _ => .isFalse (fun h => List.noConfusion h)
  | _ :: _, [] => .isFalse (fun h => List.noConfusion h)
  | x :: xs, y :: ys =>
    match jsonDecEq x y with
    | .isTrue h1 =>
      match jsonListDecEq xs ys with
      | .isTrue h2 => .isTrue (by rw [h1, h2])
      | .isFalse h2 => .isFalse (by intro he; injection he; contradiction)
    | .isFalse h1 => .isFalse (by intro he; injection he; contradiction)

def jsonObjDecEq : (a b : List (String × Json)) → Decidable (a = b)
  | [], [] => .isTrue rfl
  | [], _ :: _ => .isFalse (fun h => List.noConfusion h)
  | _ :: _, [] => .isFalse (fun h => List.noConfusion h)
  | (k, v) :: xs, (k', v') :: ys =>
    match String.decEq k k' with
    | .isTrue hk =>
      match jsonDecEq v v' with
      | .isTrue h1 =>
        match jsonObjDecEq xs ys with
        | .isTrue h2 => .isTrue (by rw [hk, h1, h2])
        | .isFalse h2 => .isFalse (by
            intro he; injection he with h3 h4; exact h2 h4)
      | .isFalse h1 => .isFalse (by
          intro he; injection he with h3 h4
          exact h1 (congrArg Prod.snd h3))
    | .isFalse hk => .isFalse (by
        intro he; injection he with h3 h4
        exact hk (congrArg Prod.fst h3))

end

instance : DecidableEq Json := jsonDecEq

namespace Assoc

/-- Lookup in an insertion-ordered association list (Python `d[k]` /
`k in d`). -/
def lookup (l : List (String × α)) (k : String) : Option α :=
  match l with
  | [] => none
  | (k', v) :: t => if k' = k then some v else lookup t k

/-- Python `d[k] = v`: replace the value in place when the key exists
(keeping its position), otherwise append the new binding at the end. -/
def set (l : List (String × α)) (k : String) (v : α) : List (String × α) :=
  match l with
  | [] => [(k, v)]
  | (k', v') :: t => if k' = k then (k, v) :: t else (k', v') :: set t k v

/-- The keys of an association list, in order. -/
def keys (l : List (String × α)) : List String := l.map Prod.fst

/-- Python `d.update(e)`: assign each binding of `e` into `d` in order. -/
def update (d e : List (String × α)) : List (String × α) :=
  e.foldl (fun acc kv => set acc kv.1 kv.2) d

end Assoc

/-! ## Serialization: a character-exact model of `json.dump(v, file, indent=4)`

The monitor writes every JSON file through `json.dump(..., indent=4)`
(`save_json`, `setup_metadata_file`, `update_metadata_file`,
`fetch_or_save_profile_id`).  `dumps` below reproduces CPython's output for
the value domain the monitor uses: `indent=4` separators (`','` +
newline-indent between items, `': '` between key and value), `ensure_ascii`
string escaping, decimal integers, and `null`/`true`/`false` literals. -/
/-- Decimal digit character. -/
def digitChar10 (n : Nat) : Char :=
  match n with
  | 0 => '0' | 1 => '1' | 2 => '2' | 3 => '3' | 4 => '4'
  | 5 => '5' | 6 => '6' | 7 => '7' | 8 => '8' | _ => '9'

/-- Lowercase hexadecimal digit character (CPython emits lowercase in
`\uXXXX` escapes). -/
def hexDigitChar (n : Nat) : Char :=
  match n with
  | 0 => '0' | 1 => '1' | 2 => '2' | 3 => '3' | 4 => '4'
  | 5 => '5' | 6 => '6' | 7 => '7' | 8 => '8' | 9 => '9'
  | 10 => 'a' | 11 => 'b' | 12 => 'c' | 13 => 'd' | 14 => 'e' | _ => 'f'

/-- Fuel-driven decimal printer (most significant digit first). -/
def natToDecAux : Nat → Nat → List Char
  | 0, _ => []
  | fuel + 1, n =>
    if n < 10 then [digitChar10 n]
    else natToDecAux fuel (n / 10) ++ [digitChar10 (n % 10)]

/-- Decimal representation of a natural number, as `str(n)` in Python. -/
def natToDec (n : Nat) : List Char := natToDecAux (n + 1) n

/-- Decimal representation of an integer, as `str(n)` in Python. -/
def intToDec (n : Int) : List Char :=
  if n < 0 then '-' :: natToDec n.natAbs else natToDec n.natAbs

/-- Four hex digits of a code unit `n < 0x10000`, most significant first. -/
def hex4 (n : Nat) : List Char :=
  [hexDigitChar (n / 4096 % 16), hexDigitChar (n / 256 % 16),
   hexDigitChar (n / 16 % 16), hexDigitChar (n % 16)]

/-- The `\uXXXX` escape for a code unit `n < 0x10000`. -/
def encodeU (n : Nat) : List Char := '\\' :: 'u' :: hex4 n

/-- CPython `json` escaping of one character with `ensure_ascii=True`:
quote and backslash get two-character escapes, the five shorthand control
characters get theirs, any other character outside `0x20..0x7e` is emitted
as `\uXXXX` (a surrogate pair for code points above `0xffff`). -/
def escChar (c : Char) : List Char :=
  if c = '"' then ['\\', '"']
  else if c = '\\' then ['\\', '\\']
  else if c = Char.ofNat 8 then ['\\', 'b']
  else if c = Char.ofNat 9 then ['\\', 't']
  else if c = Char.ofNat 10 then ['\\', 'n']
  else if c = Char.ofNat 12 then ['\\', 'f']
  else if c = Char.ofNat 13 then ['\\', 'r']
  else if c.toNat < 32 then encodeU c.toNat
  else if c.toNat ≤ 126 then [c]
  else if c.toNat < 65536 then encodeU c.toNat
  else encodeU (55296 + (c.toNat - 65536) / 1024) ++
       encodeU (56320 + (c.toNat - 65536) % 1024)

/-- Escape a character sequence for inclusion in a JSON string literal. -/
def escapeL (s : List Char) : List Char := s.flatMap escChar

/-- `indent=4` indentation at nesting depth `d`. -/
def ind (d : Nat) : List Char := List.replicate (4 * d) ' '

mutual

/-- `json.dump(v, file, indent=4)` at nesting depth `d`. -/
def dumpV : Nat → Json → List Char
  | _, .null => ['n', 'u', 'l', 'l']
  | _, .bool true => ['t', 'r', 'u', 'e']
  | _, .bool false => ['f', 'a', 'l', 's', 'e']
  | _, .num n => intToDec n
  | _, .str s => '"' :: (escapeL s.data ++ ['"'])
  | _, .arr [] => ['[', ']']
  | d, .arr (x :: xs) =>
    '[' :: '\n' :: (ind (d + 1) ++ dumpV (d + 1) x ++ dumpElems (d + 1) xs ++
      '\n' :: (ind d ++ [']']))
  | _, .obj [] => [Char.ofNat 123, Char.ofNat 125]
  | d, .obj (kv :: kvs) =>
    Char.ofNat 123 :: '\n' :: (ind (d + 1) ++ dumpMember (d + 1) kv ++
      dumpMembers (d + 1) kvs ++ '\n' :: (ind d ++ [Char.ofNat 125]))

/-- One `"key": value` member at depth `d`. -/
def dumpMember : Nat → String × Json → List Char
  | d, (k, v) => '"' :: (escapeL k.data ++ '"' :: ':' :: ' ' :: dumpV d v)

/-- The `,\n<indent>element` continuation of a non-empty array. -/
def dumpElems : Nat → List Json → List Char
  | _, [] => []
  | d, x :: xs => ',' :: '\n' :: (ind d ++ dumpV d x ++ dumpElems d xs)

/-- The `,\n<indent>member` continuation of a non-empty object. -/
def dumpMembers : Nat → List (String × Json) → List Char
  | _, [] => []
  | d, kv :: kvs => ',' :: '\n' :: (ind d ++ dumpMember d kv ++ dumpMembers d kvs)

end

/-- Top-level serialization, as written to a file by the monitor. -/
def dumps (v : Json) : List Char := dumpV 0 v

/-! ## Parsing: a model of `json.load`

`loads` parses what `json.load` accepts on the monitor's value domain
(objects, arrays, `ensure_ascii`-escaped strings, integers, literals), is
whitespace-insensitive between tokens, and fails on trailing data (CPython
raises `JSONDecodeError: Extra data`) or malformed input.  Two deliberate
restrictions, documented feature-by-feature: float literals are rejected
(the monitor never writes them) and a lone surrogate escape is rejected
(Lean's `Char` has no surrogate code points; `dumps` only emits paired
surrogates). -/
/-- JSON insignificant whitespace. -/
def isWsChar (c : Char) : Bool :=
  c = ' ' || c = Char.ofNat 10 || c = Char.ofNat 9 || c = Char.ofNat 13

/-- Skip insignificant whitespace. -/
def skipWs (cs : List Char) : List Char := cs.dropWhile isWsChar

/-- ASCII decimal digit test. -/
def isDigitChar (c : Char) : Bool :=
  decide (48 ≤ c.toNat) && decide (c.toNat ≤ 57)

/-- Decode a big-endian digit string. -/
def decodeBE (l : List Char) : Nat :=
  l.foldl (fun a c => 10 * a + (c.toNat - 48)) 0

/-- Parse a maximal run of decimal digits. -/
def parseNat (cs : List Char) : Option (Nat × List Char) :=
  let ds := cs.takeWhile isDigitChar
  if ds.isEmpty then none else some (decodeBE ds, cs.dropWhile isDigitChar)

/-- Hexadecimal digit value (both cases accepted, as in `json.load`). -/
def hexVal (c : Char) : Option Nat :=
  if c = '0' then some 0 else if c = '1' then some 1
  else if c = '2' then some 2 else if c = '3' then some 3
  else if c = '4' then some 4 else if c = '5' then some 5
  else if c = '6' then some 6 else if c = '7' then some 7
  else if c = '8' then some 8 else if c = '9' then some 9
  else if c = 'a' then some 10 else if c = 'b' then some 11
  else if c = 'c' then some 12 else if c = 'd' then some 13
  else if c = 'e' then some 14 else if c = 'f' then some 15
  else if c = 'A' then some 10 else if c = 'B' then some 11
  else if c = 'C' then some 12 else if c = 'D' then some 13
  else if c = 'E' then some 14 else if c = 'F' then some 15
  else none

/-- Prepend a decoded character to a string-body parse result. -/
def mapCons (c : Char) (o : Option (List Char × List Char)) :
    Option (List Char × List Char) :=
  o.map (fun p => (c :: p.1, p.2))

/-- Parse four hexadecimal digits. -/
def parseHex4 (t : List Char) : Option (Nat × List Char) :=
  match t with
  | h1 :: h2 :: h3 :: h4 :: t2 =>
    match hexVal h1, hexVal h2, hexVal h3, hexVal h4 with
    | some a, some b, some c, some d => some (4096 * a + 256 * b + 16 * c + d, t2)
    | _, _, _, _ => none
  | _ => none

/-- Parse the body of a JSON string literal after the opening quote, up to
and including the closing quote; returns the decoded characters and the
remaining input.  Strict mode: raw control characters are rejected.  A
`\uXXXX` escape in the surrogate range must be a well-formed surrogate
pair (a lone surrogate has no `Char` counterpart; `dumps` never emits
one). -/
def parseStrBody : Nat → List Char → Option (List Char × List Char)
  | 0, _ => none
  | _ + 1, [] => none
  | fuel + 1, c :: t =>
    if c = '"' then some ([], t)
    else if c = '\\' then
      match t with
      | [] => none
      | e :: t1 =>
        if e = '"' then mapCons '"' (parseStrBody fuel t1)
        else if e = '\\' then mapCons '\\' (parseStrBody fuel t1)
        else if e = '/' then mapCons '/' (parseStrBody fuel t1)
        else if e = 'b' then mapCons (Char.ofNat 8) (parseStrBody fuel t1)
        else if e = 't' then mapCons (Char.ofNat 9) (parseStrBody fuel t1)
        else if e = 'n' then mapCons (Char.ofNat 10) (parseStrBody fuel t1)
        else if e = 'f' then mapCons (Char.ofNat 12) (parseStrBody fuel t1)
        else if e = 'r' then mapCons (Char.ofNat 13) (parseStrBody fuel t1)
        else if e = 'u' then
          match parseHex4 t1 with
          | some (n, t2) =>
            if 55296 ≤ n ∧ n ≤ 56319 then
              match t2 with
              | e1 :: e2 :: t3 =>
                if e1 = '\\' ∧ e2 = 'u' then
                  match parseHex4 t3 with
                  | some (m, t4) =>
                    if 56320 ≤ m ∧ m ≤ 57343 then
                      mapCons (Char.ofNat (65536 + (n - 55296) * 1024 + (m - 56320)))
                        (parseStrBody fuel t4)
                    else none
                  | none => none
                else none
              | _ => none
            else if 56320 ≤ n ∧ n ≤ 57343 then none
            else mapCons (Char.ofNat n) (parseStrBody fuel t2)
          | none => none
        else none
    else if c.toNat < 32 then none
    else mapCons c (parseStrBody fuel t)

mutual

/-- Parse one JSON value (after skipping leading whitespace). -/
def parseVal : Nat → List Char → Option (Json × List Char)
  | 0, _ => none
  | fuel + 1, cs =>
    match skipWs cs with
    | [] => none
    | c :: t =>
      if c = Char.ofNat 123 then
        match skipWs t with
        | c2 :: t2 =>
          if c2 = Char.ofNat 125 then some (.obj [], t2)
          else (parseMemberList fuel (skipWs t)).map (fun p => (Json.obj p.1, p.2))
        | [] => none
      else if c = '[' then
        match skipWs t with
        | c2 :: t2 =>
          if c2 = ']' then some (.arr [], t2)
          else (parseElemList fuel (skipWs t)).map (fun p => (Json.arr p.1, p.2))
        | [] => none
      else if c = '"' then
        (parseStrBody (t.length + 1) t).map (fun p => (Json.str (String.mk p.1), p.2))
      else if c = 't' then
        match t with
        | 'r' :: 'u' :: 'e' :: r => some (.bool true, r)
        | _ => none
      else if c = 'f' then
        match t with
        | 'a' :: 'l' :: 's' :: 'e' :: r => some (.bool false, r)
        | _ => none
      else if c = 'n' then
        match t with
        | 'u' :: 'l' :: 'l' :: r => some (.null, r)
        | _ => none
      else if c = '-' then
        (parseNat t).map (fun p => (Json.num (-(p.1 : Int)), p.2))
      else
        (parseNat (c :: t)).map (fun p => (Json.num (p.1 : Int), p.2))

/-- Parse the elements of a non-empty array, up to and including `]`. -/
def parseElemList : Nat → List Char → Option (List Json × List Char)
  | 0, _ => none
  | fuel + 1, cs =>
    match parseVal fuel cs with
    | some (v, r) =>
      match skipWs r with
      | c :: t =>
        if c = ',' then (parseElemList fuel t).map (fun p => (v :: p.1, p.2))
        else if c = ']' then some ([v], t)
        else none
      | [] => none
    | none => none

/-- Parse the members of a non-empty object, up to and including the
closing brace. -/
def parseMemberList : Nat → List Char → Option (List (String × Json) × List Char)
  | 0, _ => none
  | fuel + 1, cs =>
    match skipWs cs with
    | c :: t =>
      if c = '"' then
        match parseStrBody (t.length + 1) t with
        | some (k, t1) =>
          match skipWs t1 with
          | c1 :: t2 =>
            if c1 = ':' then
              match parseVal fuel t2 with
              | some (v, t3) =>
                match skipWs t3 with
                | c2 :: t4 =>
                  if c2 = ',' then
                    (parseMemberList fuel t4).map
                      (fun p => ((String.mk k, v) :: p.1, p.2))
                  else if c2 = Char.ofNat 125 then some ([(String.mk k, v)], t4)
                  else none
                | [] => none
              | none => none
            else none
          | [] => none
        | none => none
      else none
    | [] => none

end

/-- `json.load` on a whole file: one value, then nothing but whitespace
(CPython raises "Extra data" otherwise). -/
def loads (cs : List Char) : Option Json :=
  match parseVal (cs.length + 1) cs with
  | some (v, r) => if skipWs r = [] then some v else none
  | none => none

mutual

/-- Structural size used as parser fuel accounting. -/
def jsizeV : Json → Nat
  | .null => 1
  | .bool _ => 1
  | .num _ => 1
  | .str _ => 1
  | .arr xs => 1 + jsizeL xs
  | .obj kvs => 1 + jsizeM kvs

def jsizeL : List Json → Nat
  | [] => 1
  | x :: xs => 1 + jsizeV x + jsizeL xs

def jsizeM : List (String × Json) → Nat
  | [] => 1
  | kv :: kvs => 1 + jsizeV kv.2 + jsizeM kvs

end

/-- Head-condition for contexts a printed number can be followed by. -/
def headNotDigit (rest : List Char) : Prop :=
  match rest with
  | [] => True
  | c :: _ => isDigitChar c = false

/-! ## On-disk state

`FS` models the directory tree and the JSON files the monitor touches:
`files` maps a path to its raw character content (files are whole-file
rewritten by the monitor, except for `update_metadata_file`, which seeks
to offset 0 and writes without truncating), and `dirs` records created
directories. -/
structure FS where
  dirs : List String
  files : List (String × List Char)
  deriving DecidableEq

def fsRead (fs : FS) (p : String) : Option (List Char) := Assoc.lookup fs.files p

def fsWrite (fs : FS) (p : String) (c : List Char) : FS :=
  { fs with files := Assoc.set fs.files p c }

def fsExists (fs : FS) (p : String) : Bool := (fsRead fs p).isSome

def addDir (fs : FS) (d : String) : FS :=
  if d ∈ fs.dirs then fs else { fs with dirs := fs.dirs ++ [d] }

/-- `Path.mkdir(parents=True, exist_ok=True)` / `os.makedirs(...,
exist_ok=True)`: create the directory and its missing ancestors. -/
def mkdirP (fs : FS) (chain : List String) : FS := chain.foldl addDir fs

/-! ## Paths (from `__init__` and `setup_dirs`) -/
def dataDir (u : String) : String := "output/" ++ u ++ "_data"

def highlightsDirPath (u : String) : String := dataDir u ++ "/highlights"

def storiesDirPath (u : String) : String := dataDir u ++ "/stories"

def dataFilePath (u : String) : String := dataDir u ++ "/data.json"

def highlightsFilePath (u : String) : String :=
  dataDir u ++ "/highlights/downloaded_highlights.json"

def storiesFilePath (u : String) : String :=
  dataDir u ++ "/stories/downloaded_stories.json"

def metadataFilePath (u : String) : String := dataDir u ++ "/metadata.json"

def profileIdFilePath (u : String) : String := u ++ "_profile_id.json"

/-! ## The external provider (instaloader), as pure data -/
/-- One story item as the monitor reads it: `mediaid`, `url`, formatted
timestamps (`strftime` output is passed through as a string), caption
(possibly `None`), mention list, video flag and optional video URL. -/
structure StoryItem where
  mediaid : Int
  url : String
  date_s : String
  expiring_s : String
  caption : Option String
  caption_mentions : List String
  is_video : Bool
  video_url : Option String
  deriving DecidableEq

structure Highlight where
  unique_id : Int
  title : String
  cover_url : String
  itemcount : Int
  items : List StoryItem
  deriving DecidableEq

structure Story where
  unique_id : Int
  last_seen_s : Option String
  latest_media_s : String
  itemcount : Int
  items : List StoryItem
  deriving DecidableEq

structure ProfileInfo where
  userid : Int
  followers : Int
  followees : Int
  biography : String
  profile_pic_url : String
  follower_list : List (Int × String)
  followee_list : List (Int × String)
  deriving DecidableEq

/-- What the provider returns for this profile during one run. -/
structure Provider where
  profile : ProfileInfo
  highlights : List Highlight
  stories : List Story
  deriving DecidableEq

/-- Observable side effects of a run: media downloads
(`L.download_storyitem` / `L.download_profile`) and metadata-file write
calls (`update_metadata_file`). -/
inductive Event where
  | downloadStoryItem (target : String) (mediaid : Int)
  | metaWrite (category : String) (timestamp : String)
      (payload : List (String × Json))
  | downloadProfile (username : String)
  deriving DecidableEq

structure Effects where
  fs : FS
  events : List Event
  deriving DecidableEq

/-! ## Monitor instance state

Mirrors the Python instance attributes.  `load_data` assigns
`self.__dict__[data_key]` for the keys `data`, `downloaded_highlights` and
`downloaded_stories` — these are distinct attributes from
`downloaded_highlights_list` / `downloaded_stories_list` initialized in
`__init__` and used by the reconciler.  The two dynamically assigned ones
do not exist before `load_data` runs, hence `Option`. -/
structure MState where
  downloaded_highlights_list : List Int
  downloaded_stories_list : List Int
  data : Json
  downloaded_highlights : Option Json
  downloaded_stories : Option Json
  deriving DecidableEq

/-- Attribute values set in `__init__` (lines 44-46). -/
def initState : MState :=
  { downloaded_highlights_list := []
    downloaded_stories_list := []
    data := .obj []
    downloaded_highlights := none
    downloaded_stories := none }

/-! ## Local store operations -/
/-- `setup_dirs` (lines 57-76): create the highlights and stories
directories with `parents=True, exist_ok=True` (ancestors `output` and the
profile data directory are created as needed); the file attributes are
path constants here. -/
def setup_dirs (u : String) (fs : FS) : FS :=
  mkdirP (mkdirP fs ["output", dataDir u, highlightsDirPath u])
    ["output", dataDir u, storiesDirPath u]

/-- The two-category skeleton written by `setup_metadata_file`. -/
def initialMetadata : Json := .obj [("highlights", .obj []), ("stories", .obj [])]

/-- `setup_metadata_file` (lines 78-87): create `metadata.json` with the
initial skeleton only when the file does not exist. -/
def setup_metadata_file (u : String) (fs : FS) : FS :=
  if fsExists fs (metadataFilePath u) then fs
  else fsWrite fs (metadataFilePath u) (dumps initialMetadata)

/-- The layout-setup part of `__init__` (`setup_dirs` then
`setup_metadata_file`), the spec's `ensureLayout`. -/
def ensureLayout (u : String) (fs : FS) : FS :=
  setup_metadata_file u (setup_dirs u fs)

/-- Constructing a fresh `InstagramMonitor` instance. -/
def initMonitor (u : String) (fs : FS) : MState × FS :=
  (initState, ensureLayout u fs)

/-- `load_json` (lines 101-105): missing file → empty dict; existing file
→ `json.load` (a parse failure raises, modelled as `none`). -/
def load_json (fs : FS) (p : String) : Option Json :=
  match fsRead fs p with
  | none => some (.obj [])
  | some content => loads content

/-- `save_json` (lines 107-109): `open(..., "w")` truncates, so the file
content becomes exactly the serialization. -/
def save_json (fs : FS) (p : String) (v : Json) : FS := fsWrite fs p (dumps v)

/-- `load_data` (lines 93-95): `self.__dict__[data_key] = load_json(...)`
for `data`, `downloaded_highlights`, `downloaded_stories` (in the order of
`data_file_mapping`). -/
def load_data (u : String) (st : MState) (fs : FS) : Option MState := do
  let d ← load_json fs (dataFilePath u)
  let hv ← load_json fs (highlightsFilePath u)
  let sv ← load_json fs (storiesFilePath u)
  some { st with data := d, downloaded_highlights := some hv,
                 downloaded_stories := some sv }

/-- `save_data` (lines 97-99): `save_json(filename, self.__dict__[data_key])`
for the same three keys.  Reading an attribute that `load_data` has not
assigned yet would raise `AttributeError` (`none`). -/
def save_data (u : String) (st : MState) (eff : Effects) : Option Effects :=
  match st.downloaded_highlights, st.downloaded_stories with
  | some hv, some sv =>
    some { eff with
      fs := save_json (save_json (save_json eff.fs (dataFilePath u) st.data)
        (highlightsFilePath u) hv) (storiesFilePath u) sv }
  | _, _ => none

/-- `file.seek(0)` followed by a write without `truncate()`: the new
serialization overwrites the start of the file and any residual bytes of
the prior content beyond its length survive. -/
def overwriteFrom0 (old new : List Char) : List Char :=
  new ++ old.drop new.length

/-- The in-memory mutation of `update_metadata_file` (lines 117-119):
ensure a sub-dict exists at `metadata[category_key][timestamp]`, then
`.update(new_metadata)`.  `none` models the exceptions Python would raise
when the metadata value is not an object, the category key is missing or
not a dict, or the existing timestamp entry is not a dict. -/
def updateLog (metadata : Json) (category_key : String)
    (new_metadata : List (String × Json)) (timestamp : String) : Option Json :=
  match metadata with
  | .obj m =>
    match Assoc.lookup m category_key with
    | some (.obj catMap) =>
      let catMap1 := if (Assoc.lookup catMap timestamp).isSome then catMap
                     else Assoc.set catMap timestamp (.obj [])
      match Assoc.lookup catMap1 timestamp with
      | some (.obj entry) =>
        some (.obj (Assoc.set m category_key
          (.obj (Assoc.set catMap1 timestamp
            (.obj (Assoc.update entry new_metadata))))))
      | _ => none
    | _ => none
  | _ => none

/-- `update_metadata_file` (lines 111-121): `open("r+")` (missing file
raises), `json.load`, in-memory merge, `seek(0)`, `json.dump` without
truncation.  The call is also recorded as a `metaWrite` event. -/
def update_metadata_file (u : String) (eff : Effects) (category_key : String)
    (new_metadata : List (String × Json)) (timestamp : String) : Option Effects :=
  match fsRead eff.fs (metadataFilePath u) with
  | none => none
  | some content =>
    match loads content with
    | none => none
    | some metadata =>
      match updateLog metadata category_key new_metadata timestamp with
      | none => none
      | some metadata' =>
        some { fs := fsWrite eff.fs (metadataFilePath u)
                 (overwriteFrom0 content (dumps metadata'))
               events := eff.events ++
                 [.metaWrite category_key timestamp new_metadata] }

/-! ## Metadata payloads (from `download_highlights_with_metadata` and
`download_stories_with_metadata`) -/
def jopt : Option String → Json
  | none => .null
  | some s => .str s

def highlightItemMetadata (it : StoryItem) : Json :=
  .obj [("media_id", .num it.mediaid), ("url", .str it.url),
        ("caption", jopt it.caption),
        ("caption_mentions", .arr (it.caption_mentions.map Json.str)),
        ("is_video", .bool it.is_video),
        ("video_url", if it.is_video then jopt it.video_url else .null)]

/-- The consolidated per-highlight metadata dict (lines 149-175); the
`stories` list accumulates one entry per item in enumeration order. -/
def highlightsMetadata (h : Highlight) : List (String × Json) :=
  [("id", .num h.unique_id), ("title", .str h.title),
   ("cover_url", .str h.cover_url), ("highlight_count", .num h.itemcount),
   ("stories", .arr (h.items.map highlightItemMetadata))]

def storyItemMetadata (it : StoryItem) : Json :=
  .obj [("media_id", .num it.mediaid), ("url", .str it.url),
        ("created_at", .str it.date_s), ("expires_at", .str it.expiring_s),
        ("caption", jopt it.caption),
        ("caption_mentions", .arr (it.caption_mentions.map Json.str)),
        ("is_video", .bool it.is_video),
        ("video_url", if it.is_video then jopt it.video_url else .null)]

/-- The consolidated per-story metadata dict (lines 193-218). -/
def storiesMetadata (s : Story) : List (String × Json) :=
  [("id", .num s.unique_id), ("last_seen", jopt s.last_seen_s),
   ("latest_media", .str s.latest_media_s), ("story_count", .num s.itemcount),
   ("stories", .arr (s.items.map storyItemMetadata))]

def pushDownload (eff : Effects) (target : String) (mid : Int) : Effects :=
  { eff with events := eff.events ++ [.downloadStoryItem target mid] }

/-- `download_highlights_with_metadata` (lines 147-177): download each
item into the highlights directory, then write one consolidated
metadata-log entry under the shared timestamp. -/
def download_highlights_with_metadata (u : String) (eff : Effects)
    (h : Highlight) (timestamp : String) : Option Effects :=
  let eff1 := h.items.foldl
    (fun e it => pushDownload e (highlightsDirPath u) it.mediaid) eff
  update_metadata_file u eff1 "highlights" (highlightsMetadata h) timestamp

/-- `download_stories_with_metadata` (lines 192-220). -/
def download_stories_with_metadata (u : String) (eff : Effects) (s : Story)
    (timestamp : String) : Option Effects :=
  let eff1 := s.items.foldl
    (fun e it => pushDownload e (storiesDirPath u) it.mediaid) eff
  update_metadata_file u eff1 "stories" (storiesMetadata s) timestamp

/-- The loop of `download_new_highlights` (lines 135-144): skip a
highlight whose `unique_id` is in `downloaded_ids`, otherwise download it
and append its id to `new_downloads`. -/
def dnhGo (u : String) (downloadedIds : List Int) (timestamp : String) :
    List Highlight → Effects → List Int → Option (List Int × Effects)
  | [], eff, acc => some (acc, eff)
  | h :: rest, eff, acc =>
    if h.unique_id ∈ downloadedIds then dnhGo u downloadedIds timestamp rest eff acc
    else
      match download_highlights_with_metadata u eff h timestamp with
      | some eff' => dnhGo u downloadedIds timestamp rest eff' (acc ++ [h.unique_id])
      | none => none

/-- `download_new_highlights` (lines 131-145): the set of known ids is
built from `self.downloaded_highlights_list`. -/
def download_new_highlights (u : String) (st : MState) (eff : Effects)
    (highlights : List Highlight) (timestamp : String) :
    Option (List Int × Effects) :=
  dnhGo u st.downloaded_highlights_list timestamp highlights eff []

/-- The loop of `download_new_stories` (lines 184-189): every enumerated
story is downloaded; nothing is ever appended to `new_downloads`. -/
def dnsGo (u : String) (timestamp : String) :
    List Story → Effects → Option Effects
  | [], eff => some eff
  | s :: rest, eff =>
    match download_stories_with_metadata u eff s timestamp with
    | some eff' => dnsGo u timestamp rest eff'
    | none => none

/-- `download_new_stories` (lines 179-190): `new_downloads` is initialized
to `[]` (line 180), a set of known story ids is computed (line 181) but
never consulted, and `new_downloads` is returned unchanged (line 190). -/
def download_new_stories (u : String) (st : MState) (eff : Effects)
    (stories : List Story) (timestamp : String) : Option (List Int × Effects) :=
  let _downloaded_ids := st.downloaded_stories_list
  (dnsGo u timestamp stories eff).map (fun eff' => (([] : List Int), eff'))

/-- `fetch_or_save_profile_id` with `return_id=False` (lines 234-236):
overwrite the profile-id file with the freshly fetched id. -/
def fetch_or_save_profile_id (u : String) (currentId : Int) (fs : FS) : FS :=
  fsWrite fs (profileIdFilePath u) (dumps (.obj [("profile_id", .num currentId)]))

/-- `check_and_update_profile_id` (lines 238-264): create the file when
missing, load the stored id, compare to the fresh id, and overwrite the
file on mismatch.  `none` models the re-raised exceptions of the `except`
block (parse failure, missing `profile_id` key, non-dict file content). -/
def check_and_update_profile_id (u : String) (currentId : Int) (fs : FS) :
    Option FS :=
  let fs1 := if fsExists fs (profileIdFilePath u) then fs
             else fetch_or_save_profile_id u currentId fs
  match fsRead fs1 (profileIdFilePath u) with
  | none => none
  | some content =>
    match loads content with
    | none => none
    | some m =>
      match m with
      | .obj mm =>
        match Assoc.lookup mm "profile_id" with
        | some stored =>
          some (if stored ≠ .num currentId
                then fetch_or_save_profile_id u currentId fs1 else fs1)
        | none => none
      | _ => none

/-- The snapshot record built by `update_profile_info` (lines 281-288);
`(userid, username)` tuples serialize as two-element arrays. -/
def snapshotJson (p : ProfileInfo) : Json :=
  .obj [("followers_count", .num p.followers),
        ("following_count", .num p.followees),
        ("bio", .str p.biography),
        ("profile_pic_url", .str p.profile_pic_url),
        ("followers", .arr (p.follower_list.map
          (fun pr => .arr [.num pr.1, .str pr.2]))),
        ("following", .arr (p.followee_list.map
          (fun pr => .arr [.num pr.1, .str pr.2])))]

/-- `update_profile_info` (lines 266-291): `self.data[timestamp] = record`
then `save_data` (`none` when `self.data` is not a dict, which would raise
`TypeError`). -/
def update_profile_info (u : String) (p : ProfileInfo) (st : MState)
    (eff : Effects) (timestamp : String) : Option (MState × Effects) :=
  match st.data with
  | .obj d =>
    let st' := { st with data := .obj (Assoc.set d timestamp (snapshotJson p)) }
    (save_data u st' eff).map (fun e => (st', e))
  | _ => none

/-- `run_monitor` (lines 293-329) on an already-constructed instance:
`setup()` (makedirs + `load_data`), highlight reconciliation, story
download, profile snapshot, profile-picture/tagged download.  Any `none`
models the exception re-raised by the `except` block. -/
def run_monitor (u : String) (prov : Provider) (st : MState) (fs : FS)
    (timestamp : String) : Option (MState × Effects) := do
  let fs := mkdirP fs ["output", dataDir u]
  let st ← load_data u st fs
  let r1 ← download_new_highlights u st ⟨fs, []⟩ prov.highlights timestamp
  let st := { st with
    downloaded_highlights_list := st.downloaded_highlights_list ++ r1.1 }
  let eff ← save_data u st r1.2
  let r2 ← download_new_stories u st eff prov.stories timestamp
  let st := { st with
    downloaded_stories_list := st.downloaded_stories_list ++ r2.1 }
  let eff ← save_data u st r2.2
  let res ← update_profile_info u prov.profile st eff timestamp
  some (res.1, { res.2 with events := res.2.events ++ [.downloadProfile u] })

/-- Construct a fresh `InstagramMonitor` and invoke `run_monitor`:
one complete run against a given on-disk state. -/
def monitorRun (u : String) (prov : Provider) (fs : FS) (timestamp : String) :
    Option (MState × Effects) :=
  let p := initMonitor u fs
  run_monitor u prov p.1 p.2 timestamp

/-- A small concrete profile used by witnesses. -/
def profW : ProfileInfo :=
  { userid := 7, followers := 0, followees := 0, biography := "b",
    profile_pic_url := "p", follower_list := [], followee_list := [] }

/-- An instance state whose snapshot store already holds timestamp `T`. -/
def stWCollide : MState :=
  { downloaded_highlights_list := [], downloaded_stories_list := [],
    data := .obj [("T", .num 0)],
    downloaded_highlights := some (.obj []),
    downloaded_stories := some (.obj []) }

/-- An instance state whose snapshot store holds one prior timestamp. -/
def stWFresh : MState :=
  { downloaded_highlights_list := [], downloaded_stories_list := [],
    data := .obj [("T0", .num 1)],
    downloaded_highlights := some (.obj []),
    downloaded_stories := some (.obj []) }

def effW : Effects := { fs := { dirs := [], files := [] }, events := [] }

/-! ## Reconciler lemmas (for C2, C4, C5) -/
/-- The events produced by downloading one new highlight: one media
download per item (into the highlights directory), then one metadata-log
write under the shared timestamp. -/
def hlEvents (u ts : String) (h : Highlight) : List Event :=
  h.items.map (fun it => Event.downloadStoryItem (highlightsDirPath u) it.mediaid) ++
    [Event.metaWrite "highlights" ts (highlightsMetadata h)]

/-- The events produced by downloading one story. -/
def stEvents (u ts : String) (s : Story) : List Event :=
  s.items.map (fun it => Event.downloadStoryItem (storiesDirPath u) it.mediaid) ++
    [Event.metaWrite "stories" ts (storiesMetadata s)]

/-! ## Concrete scenario (two highlights, one story, tiny profile) -/
def hlA : Highlight :=
  { unique_id := 101, title := "a", cover_url := "c", itemcount := 0, items := [] }

def hlB : Highlight :=
  { unique_id := 102, title := "b", cover_url := "c", itemcount := 0, items := [] }

def stG : Story :=
  { unique_id := 500, last_seen_s := none, latest_media_s := "M", itemcount := 0,
    items := [] }

def provG : Provider := { profile := profW, highlights := [hlA, hlB], stories := [stG] }

def fsEmpty : FS := { dirs := [], files := [] }

def fsMeta : FS :=
  { dirs := [], files := [(metadataFilePath "u", dumps initialMetadata)] }

def effMeta : Effects := { fs := fsMeta, events := [] }

def stKnown : MState := { initState with downloaded_highlights_list := [101] }

def mdW2 : Json :=
  .obj [("highlights", .obj [("T", .obj (highlightsMetadata hlB))]),
        ("stories", .obj [])]

def resW2 : List Int × Effects :=
  ([102],
   { fs := { dirs := [], files := [(metadataFilePath "u", dumps mdW2)] }
     events := hlEvents "u" "T" hlB })

def mdW4 : Json :=
  .obj [("highlights", .obj []),
        ("stories", .obj [("T", .obj (storiesMetadata stG))])]

def resW4 : List Int × Effects :=
  (([] : List Int),
   { fs := { dirs := [], files := [(metadataFilePath "u", dumps mdW4)] }
     events := stEvents "u" "T" stG })

/-! ## Claim C1: the cross-run highlight deduplication is broken in the code

`load_data`/`save_data` address the attributes `downloaded_highlights` /
`downloaded_stories` (the keys of `data_file_mapping`), while the
reconciler and `run_monitor` read and extend `downloaded_highlights_list`
/ `downloaded_stories_list`.  Consequently the ids collected during a run
are never persisted (the highlights file is always rewritten with the
value loaded from disk, initially the empty default), and a fresh
instance's reconciler always starts from an empty known-id set. -/
/-- The metadata log after the first run of the concrete scenario: the two
highlight writes share the category, timestamp and key set, so the second
overwrites the first (last-write-wins), and the story entry sits under the
same timestamp in its own category. -/
def mdAfterRun1 : Json :=
  .obj [("highlights", .obj [("T1", .obj (highlightsMetadata hlB))]),
        ("stories", .obj [("T1", .obj (storiesMetadata stG))])]

/-- The snapshot store after the first run. -/
def dataAfterRun1 : Json := .obj [("T1", snapshotJson profW)]

/-- The on-disk state after the first run.  The highlights and stories id
files hold the serialization of the loaded value — the default empty
mapping — not the collected ids. -/
def fs1C : FS :=
  { dirs := ["output", dataDir "u", highlightsDirPath "u", storiesDirPath "u"]
    files := [(metadataFilePath "u", dumps mdAfterRun1),
              (dataFilePath "u", dumps dataAfterRun1),
              (highlightsFilePath "u", dumps (.obj [])),
              (storiesFilePath "u", dumps (.obj []))] }

/-- The instance state at the end of the first run. -/
def st1C : MState :=
  { downloaded_highlights_list := [101, 102]
    downloaded_stories_list := []
    data := dataAfterRun1
    downloaded_highlights := some (.obj [])
    downloaded_stories := some (.obj []) }

/-- The events of the first run. -/
def ev1C : List Event :=
  [.metaWrite "highlights" "T1" (highlightsMetadata hlA),
   .metaWrite "highlights" "T1" (highlightsMetadata hlB),
   .metaWrite "stories" "T1" (storiesMetadata stG),
   .downloadProfile "u"]

def isHLMetaWrite : Event → Bool
  | .metaWrite c _ _ => c = "highlights"
  | _ => false

/-- C3 counterexample scenario: a metadata log whose only entry holds a long
string value. -/
def m0C3 : Json :=
  .obj [("highlights", .obj [("T", .obj [("k", .str "aaaaaaaaaaaaaaaaaaaaaaaa")])]),
        ("stories", .obj [])]

/-- The merged log after overwriting that value with the empty string: the
serialization shrinks. -/
def mergedC3 : Json :=
  .obj [("highlights", .obj [("T", .obj [("k", .str "")])]),
        ("stories", .obj [])]

/-- Effects whose file system holds exactly the serialized `m0C3`. -/
def effC3 : Effects :=
  { fs := { dirs := [dataDir "u"], files := [(metadataFilePath "u", dumps m0C3)] }
    events := [] }

/-- Witness scenario for C3: a fresh metadata log with empty category maps. -/
def mW3 : List (String × Json) := [("highlights", Json.obj []), ("stories", Json.obj [])]

/-- Witness effects: the metadata file holds exactly the serialized `mW3`. -/
def effW3 : Effects :=
  { fs := { dirs := [dataDir "u"], files := [(metadataFilePath "u", dumps (.obj mW3))] }
    events := [] }

/-! ## Theorems -/

namespace Assoc

theorem keys_cons (k₀ : String) (v₀ : α) (t : List (String × α)) :
    keys ((k₀, v₀) :: t) = k₀ :: keys t := rfl

theorem keys_append (l₁ l₂ : List (String × α)) :
    keys (l₁ ++ l₂) = keys l₁ ++ keys l₂ := by
  simp [keys]

theorem lookup_set_self (l : List (String × α)) (k : String) (v : α) :
    lookup (set l k v) k = some v := by
  induction l with
  | nil => simp [set, lookup]
  | cons h t ih =>
    obtain ⟨k', v'⟩ := h
    by_cases hk : k' = k
    · simp [set, hk, lookup]
    · simp [set, hk, lookup, ih]

theorem lookup_set_ne (l : List (String × α)) (k k' : String) (v : α)
    (h : k ≠ k') : lookup (set l k v) k' = lookup l k' := by
  induction l with
  | nil => simp [set, lookup, h]
  | cons hd t ih =>
    obtain ⟨k₀, v₀⟩ := hd
    by_cases hk : k₀ = k
    · subst hk
      simp [set, lookup, h]
    · simp only [set, if_neg hk, lookup]
      by_cases hk' : k₀ = k'
      · simp [hk']
      · simp [hk', ih]

theorem keys_set_of_mem (l : List (String × α)) (k : String) (v : α)
    (h : k ∈ keys l) : keys (set l k v) = keys l := by
  induction l with
  | nil => simp [keys] at h
  | cons hd t ih =>
    obtain ⟨k₀, v₀⟩ := hd
    by_cases hk : k₀ = k
    · simp [set, hk, keys]
    · have hmem : k ∈ keys t := by
        rw [keys_cons, List.mem_cons] at h
        rcases h with h1 | h1
        · exact absurd h1.symm hk
        · exact h1
      simp only [set, if_neg hk, keys_cons, ih hmem]

theorem keys_set_of_not_mem (l : List (String × α)) (k : String) (v : α)
    (h : k ∉ keys l) : keys (set l k v) = keys l ++ [k] := by
  induction l with
  | nil => simp [set, keys]
  | cons hd t ih =>
    obtain ⟨k₀, v₀⟩ := hd
    rw [keys_cons, List.mem_cons] at h
    push_neg at h
    have hk : ¬k₀ = k := fun he => h.1 he.symm
    simp only [set, if_neg hk, keys_cons, ih h.2, List.cons_append]

theorem set_append_of_not_mem (l : List (String × α)) (k : String) (v : α)
    (h : k ∉ keys l) : set l k v = l ++ [(k, v)] := by
  induction l with
  | nil => simp [set]
  | cons hd t ih =>
    obtain ⟨k₀, v₀⟩ := hd
    rw [keys_cons, List.mem_cons] at h
    push_neg at h
    have hk : ¬k₀ = k := fun he => h.1 he.symm
    simp only [set, if_neg hk, ih h.2, List.cons_append]

theorem lookup_eq_none_of_not_mem (l : List (String × α)) (k : String)
    (h : k ∉ keys l) : lookup l k = none := by
  induction l with
  | nil => rfl
  | cons hd t ih =>
    obtain ⟨k₀, v₀⟩ := hd
    rw [keys_cons, List.mem_cons] at h
    push_neg at h
    have hk : ¬k₀ = k := fun he => h.1 he.symm
    simp only [lookup, if_neg hk]
    exact ih h.2

theorem mem_keys_of_lookup_eq_some (l : List (String × α)) (k : String)
    (v : α) (h : lookup l k = some v) : k ∈ keys l := by
  induction l with
  | nil => simp [lookup] at h
  | cons hd t ih =>
    obtain ⟨k₀, v₀⟩ := hd
    by_cases hk : k₀ = k
    · rw [keys_cons, List.mem_cons]
      exact Or.inl hk.symm
    · simp only [lookup, if_neg hk] at h
      rw [keys_cons, List.mem_cons]
      exact Or.inr (ih h)

end Assoc

/-! ## Character-level facts -/
theorem toNat_ofNat_valid {n : Nat} (h : n.isValidChar) :
    (Char.ofNat n).toNat = n := by
  simp only [Char.ofNat, dif_pos h, Char.ofNatAux, Char.toNat]
  rfl

theorem char_valid_cases (c : Char) :
    c.toNat < 55296 ∨ (57344 ≤ c.toNat ∧ c.toNat < 1114112) := c.valid

theorem char_eq_ofNat_of_toNat {c : Char} {n : Nat} (h : c.toNat = n) :
    c = Char.ofNat n := by
  rw [← h, Char.ofNat_toNat]

theorem digitChar10_toNat {n : Nat} (h : n < 10) :
    (digitChar10 n).toNat = 48 + n := by
  interval_cases n <;> rfl

theorem isDigitChar_digitChar10 {n : Nat} (h : n < 10) :
    isDigitChar (digitChar10 n) = true := by
  simp only [isDigitChar, digitChar10_toNat h]
  simp
  omega

theorem not_ws_of_digit {c : Char} (h : isDigitChar c = true) :
    isWsChar c = false := by
  simp only [isDigitChar, Bool.and_eq_true, decide_eq_true_eq] at h
  simp only [isWsChar]
  have h32 : c ≠ ' ' := by
    intro he
    rw [he] at h
    revert h
    decide
  have h10 : c ≠ Char.ofNat 10 := by
    intro he
    rw [he] at h
    revert h
    decide
  have h9 : c ≠ Char.ofNat 9 := by
    intro he
    rw [he] at h
    revert h
    decide
  have h13 : c ≠ Char.ofNat 13 := by
    intro he
    rw [he] at h
    revert h
    decide
  simp [h32, h10, h9, h13]

theorem takeWhile_append_of_all {p : Char → Bool} (l rest : List Char)
    (hall : ∀ c ∈ l, p c = true)
    (hr : match rest with | [] => True | c :: _ => p c = false) :
    (l ++ rest).takeWhile p = l ∧ (l ++ rest).dropWhile p = rest := by
  induction l with
  | nil =>
    cases rest with
    | nil => simp
    | cons c t =>
      simp only [List.nil_append, List.takeWhile, List.dropWhile]
      simp only at hr
      simp [hr]
  | cons c t ih =>
    have hc : p c = true := hall c (by simp)
    have iht := ih (fun x hx => hall x (by simp [hx]))
    simp [List.takeWhile, List.dropWhile, hc, iht.1, iht.2]

/-! ## Decimal printing round-trips through `parseNat` -/
theorem natToDecAux_spec :
    ∀ fuel n, n < fuel →
      (natToDecAux fuel n ≠ [] ∧ (∀ c ∈ natToDecAux fuel n, isDigitChar c = true) ∧
        decodeBE (natToDecAux fuel n) = n) := by
  intro fuel
  induction fuel with
  | zero => intro n h; omega
  | succ f ih =>
    intro n h
    by_cases h10 : n < 10
    · refine ⟨by simp [natToDecAux, h10], ?_, ?_⟩
      · intro c hc
        simp [natToDecAux, h10] at hc
        rw [hc]
        exact isDigitChar_digitChar10 h10
      · simp [natToDecAux, h10, decodeBE, digitChar10_toNat h10]
    · have hdiv : n / 10 < f := by
        have := Nat.div_lt_self (by omega : 0 < n) (by omega : 1 < 10)
        omega
      obtain ⟨ih1, ih2, ih3⟩ := ih (n / 10) hdiv
      refine ⟨by simp [natToDecAux, h10], ?_, ?_⟩
      · intro c hc
        simp only [natToDecAux, if_neg h10, List.mem_append, List.mem_singleton] at hc
        rcases hc with hc | hc
        · exact ih2 c hc
        · rw [hc]
          exact isDigitChar_digitChar10 (Nat.mod_lt _ (by omega))
      · simp only [natToDecAux, if_neg h10, decodeBE, List.foldl_append,
          List.foldl_cons, List.foldl_nil]
        have ih3' : List.foldl (fun a c => 10 * a + (c.toNat - 48)) 0
            (natToDecAux f (n / 10)) = n / 10 := ih3
        rw [ih3', digitChar10_toNat (Nat.mod_lt n (by omega))]
        omega

theorem natToDec_ne_nil (n : Nat) : natToDec n ≠ [] :=
  (natToDecAux_spec (n + 1) n (by omega)).1

theorem natToDec_all_digits (n : Nat) : ∀ c ∈ natToDec n, isDigitChar c = true :=
  (natToDecAux_spec (n + 1) n (by omega)).2.1

theorem decodeBE_natToDec (n : Nat) : decodeBE (natToDec n) = n :=
  (natToDecAux_spec (n + 1) n (by omega)).2.2

theorem parseNat_rt (n : Nat) (rest : List Char) (hr : headNotDigit rest) :
    parseNat (natToDec n ++ rest) = some (n, rest) := by
  have h := takeWhile_append_of_all (p := isDigitChar) (natToDec n) rest
    (natToDec_all_digits n) (by cases rest <;> simp_all [headNotDigit])
  simp only [parseNat, h.1, h.2]
  have hne : (natToDec n).isEmpty = false := by
    cases he : natToDec n with
    | nil => exact absurd he (natToDec_ne_nil n)
    | cons a b => simp [List.isEmpty]
  simp [hne, decodeBE_natToDec n]

/-! ## Whitespace lemmas -/
theorem skipWs_append_ws (ws rest : List Char)
    (h : ∀ c ∈ ws, isWsChar c = true) : skipWs (ws ++ rest) = skipWs rest := by
  induction ws with
  | nil => simp
  | cons c t ih =>
    have hc : isWsChar c = true := h c (by simp)
    simp only [skipWs, List.cons_append, List.dropWhile, hc]
    exact ih (fun x hx => h x (by simp [hx]))

theorem skipWs_cons_not_ws {c : Char} (t : List Char) (h : isWsChar c = false) :
    skipWs (c :: t) = c :: t := by
  simp [skipWs, List.dropWhile, h]

theorem ind_all_ws (d : Nat) : ∀ c ∈ ind d, isWsChar c = true := by
  intro c hc
  have : c = ' ' := List.eq_of_mem_replicate hc
  rw [this]
  decide

theorem skipWs_nil : skipWs [] = [] := rfl

/-! ## String escaping round-trips through `parseStrBody` -/
theorem hexVal_hexDigitChar {d : Nat} (h : d < 16) :
    hexVal (hexDigitChar d) = some d := by
  interval_cases d <;> decide

theorem parseHex4_hex4 (n : Nat) (h : n < 65536) (t : List Char) :
    parseHex4 (hex4 n ++ t) = some (n, t) := by
  simp only [hex4, List.cons_append, List.nil_append, parseHex4]
  rw [hexVal_hexDigitChar (Nat.mod_lt _ (by omega)),
      hexVal_hexDigitChar (Nat.mod_lt _ (by omega)),
      hexVal_hexDigitChar (Nat.mod_lt _ (by omega)),
      hexVal_hexDigitChar (Nat.mod_lt _ (by omega))]
  have h4 : 4096 * (n / 4096 % 16) + 256 * (n / 256 % 16) +
      16 * (n / 16 % 16) + n % 16 = n := by
    omega
  exact congrArg (fun x => some (x, t)) h4

theorem mapCons_some {c : Char} {o : Option (List Char × List Char)}
    {s r : List Char} (h : o = some (s, r)) : mapCons c o = some (c :: s, r) := by
  rw [h]
  rfl

theorem escapeL_cons (c : Char) (cs : List Char) :
    escapeL (c :: cs) = escChar c ++ escapeL cs := by
  simp [escapeL]

theorem psb_u (fuel : Nat) (t1 : List Char) :
    parseStrBody (fuel + 1) ('\\' :: 'u' :: t1) =
      (match parseHex4 t1 with
       | some (n, t2) =>
         if 55296 ≤ n ∧ n ≤ 56319 then
           match t2 with
           | e1 :: e2 :: t3 =>
             if e1 = '\\' ∧ e2 = 'u' then
               match parseHex4 t3 with
               | some (m, t4) =>
                 if 56320 ≤ m ∧ m ≤ 57343 then
                   mapCons (Char.ofNat (65536 + (n - 55296) * 1024 + (m - 56320)))
                     (parseStrBody fuel t4)
                 else none
               | none => none
             else none
           | _ => none
         else if 56320 ≤ n ∧ n ≤ 57343 then none
         else mapCons (Char.ofNat n) (parseStrBody fuel t2)
       | none => none) := rfl

theorem psb_u_single (fuel n : Nat) (t : List Char) (hn : n < 65536)
    (h1 : ¬(55296 ≤ n ∧ n ≤ 56319)) (h2 : ¬(56320 ≤ n ∧ n ≤ 57343)) :
    parseStrBody (fuel + 1) ('\\' :: 'u' :: (hex4 n ++ t)) =
      mapCons (Char.ofNat n) (parseStrBody fuel t) := by
  rw [psb_u, parseHex4_hex4 n hn t]
  split
  · rename_i heq
    rw [Option.some_inj, Prod.mk.injEq] at heq
    rw [← heq.1, ← heq.2, if_neg h1, if_neg h2]
  · rename_i heq
    exact absurd heq (by simp)

theorem psb_u_pair (fuel q r : Nat) (t : List Char) (hq : q < 1024) (hr : r < 1024) :
    parseStrBody (fuel + 1)
      ('\\' :: 'u' :: (hex4 (55296 + q) ++ ('\\' :: 'u' :: (hex4 (56320 + r) ++ t)))) =
      mapCons (Char.ofNat (65536 + q * 1024 + r)) (parseStrBody fuel t) := by
  rw [psb_u, parseHex4_hex4 (55296 + q) (by omega)]
  split
  · rename_i heq
    rw [Option.some_inj, Prod.mk.injEq] at heq
    rw [← heq.1, ← heq.2, if_pos (by omega)]
    show (if ('\\' : Char) = '\\' ∧ ('u' : Char) = 'u' then
        match parseHex4 (hex4 (56320 + r) ++ t) with
        | some (m, t4) =>
          if 56320 ≤ m ∧ m ≤ 57343 then
            mapCons (Char.ofNat (65536 + (55296 + q - 55296) * 1024 + (m - 56320)))
              (parseStrBody fuel t4)
          else none
        | none => none
      else none) = mapCons (Char.ofNat (65536 + q * 1024 + r)) (parseStrBody fuel t)
    rw [if_pos ⟨rfl, rfl⟩]
    rw [parseHex4_hex4 (56320 + r) (by omega)]
    split
    · rename_i heq2
      rw [Option.some_inj, Prod.mk.injEq] at heq2
      rw [← heq2.1, ← heq2.2, if_pos (by omega)]
      have : 65536 + (55296 + q - 55296) * 1024 + (56320 + r - 56320) =
          65536 + q * 1024 + r := by
        omega
      rw [this]
    · rename_i heq2
      exact absurd heq2 (by simp)
  · rename_i heq
    exact absurd heq (by simp)

theorem psb_plain (fuel : Nat) (c : Char) (t : List Char)
    (h1 : c ≠ '"') (h2 : c ≠ '\\') (h3 : ¬c.toNat < 32) :
    parseStrBody (fuel + 1) (c :: t) = mapCons c (parseStrBody fuel t) := by
  simp only [parseStrBody]
  rw [if_neg h1, if_neg h2, if_neg h3]

theorem parseStrBody_rt :
    ∀ (s : List Char) (fuel : Nat) (rest : List Char), s.length + 1 ≤ fuel →
      parseStrBody fuel (escapeL s ++ '"' :: rest) = some (s, rest) := by
  intro s
  induction s with
  | nil =>
    intro fuel rest hf
    match fuel, hf with
    | f + 1, _ => simp [escapeL, parseStrBody]
  | cons c cs ih =>
    intro fuel rest hf
    match fuel, hf with
    | f + 1, hf =>
      have hfs : cs.length + 1 ≤ f := by
        simp only [List.length_cons] at hf
        omega
      have ihf := ih f rest hfs
      rw [escapeL_cons, List.append_assoc]
      by_cases h1 : c = '"'
      · subst h1
        rw [show escChar '"' = ['\\', '"'] from rfl]
        exact mapCons_some ihf
      · by_cases h2 : c = '\\'
        · subst h2
          rw [show escChar '\\' = ['\\', '\\'] from rfl]
          exact mapCons_some ihf
        · by_cases h8 : c = Char.ofNat 8
          · subst h8
            rw [show escChar (Char.ofNat 8) = ['\\', 'b'] from rfl]
            exact mapCons_some ihf
          · by_cases h9 : c = Char.ofNat 9
            · subst h9
              rw [show escChar (Char.ofNat 9) = ['\\', 't'] from rfl]
              exact mapCons_some ihf
            · by_cases h10 : c = Char.ofNat 10
              · subst h10
                rw [show escChar (Char.ofNat 10) = ['\\', 'n'] from rfl]
                exact mapCons_some ihf
              · by_cases h12 : c = Char.ofNat 12
                · subst h12
                  rw [show escChar (Char.ofNat 12) = ['\\', 'f'] from rfl]
                  exact mapCons_some ihf
                · by_cases h13 : c = Char.ofNat 13
                  · subst h13
                    rw [show escChar (Char.ofNat 13) = ['\\', 'r'] from rfl]
                    exact mapCons_some ihf
                  · by_cases hctl : c.toNat < 32
                    · -- general control character: single `\uXXXX` escape
                      rw [show escChar c = encodeU c.toNat from by
                        simp [escChar, h1, h2, h8, h9, h10, h12, h13, hctl]]
                      rw [show encodeU c.toNat ++ (escapeL cs ++ '"' :: rest) =
                          '\\' :: 'u' :: (hex4 c.toNat ++ (escapeL cs ++ '"' :: rest)) from by
                        simp [encodeU]]
                      rw [psb_u_single f c.toNat _ (by omega) (by omega) (by omega)]
                      rw [Char.ofNat_toNat]
                      exact mapCons_some ihf
                    · by_cases hp : c.toNat ≤ 126
                      · -- printable ASCII: emitted literally
                        rw [show escChar c = [c] from by
                          simp [escChar, h1, h2, h8, h9, h10, h12, h13, hctl, hp]]
                        rw [show [c] ++ (escapeL cs ++ '"' :: rest) =
                            c :: (escapeL cs ++ '"' :: rest) from by simp]
                        rw [psb_plain f c _ h1 h2 hctl]
                        exact mapCons_some ihf
                      · by_cases hbmp : c.toNat < 65536
                        · -- non-ASCII BMP scalar: single `\uXXXX` escape
                          have hval := char_valid_cases c
                          rw [show escChar c = encodeU c.toNat from by
                            simp [escChar, h1, h2, h8, h9, h10, h12, h13, hctl, hp, hbmp]]
                          rw [show encodeU c.toNat ++ (escapeL cs ++ '"' :: rest) =
                              '\\' :: 'u' :: (hex4 c.toNat ++ (escapeL cs ++ '"' :: rest)) from by
                            simp [encodeU]]
                          rw [psb_u_single f c.toNat _ hbmp (by omega) (by omega)]
                          rw [Char.ofNat_toNat]
                          exact mapCons_some ihf
                        · -- astral scalar: surrogate pair
                          have hval := char_valid_cases c
                          have hhi : c.toNat < 1114112 := by omega
                          have hq : (c.toNat - 65536) / 1024 < 1024 := by omega
                          have hr : (c.toNat - 65536) % 1024 < 1024 :=
                            Nat.mod_lt _ (by omega)
                          rw [show escChar c =
                              encodeU (55296 + (c.toNat - 65536) / 1024) ++
                              encodeU (56320 + (c.toNat - 65536) % 1024) from by
                            simp [escChar, h1, h2, h8, h9, h10, h12, h13, hctl, hp, hbmp]]
                          rw [show (encodeU (55296 + (c.toNat - 65536) / 1024) ++
                              encodeU (56320 + (c.toNat - 65536) % 1024)) ++
                              (escapeL cs ++ '"' :: rest) =
                              '\\' :: 'u' :: (hex4 (55296 + (c.toNat - 65536) / 1024) ++
                                ('\\' :: 'u' :: (hex4 (56320 + (c.toNat - 65536) % 1024) ++
                                  (escapeL cs ++ '"' :: rest)))) from by
                            simp [encodeU]]
                          rw [psb_u_pair f _ _ _ hq hr]
                          have hchar : 65536 + ((c.toNat - 65536) / 1024) * 1024 +
                              (c.toNat - 65536) % 1024 = c.toNat := by
                            omega
                          rw [hchar, Char.ofNat_toNat]
                          exact mapCons_some ihf

/-! ## Size bounds: the printed form is at least as long as the parse fuel
needs -/
theorem jsizeV_pos (v : Json) : 1 ≤ jsizeV v := by
  cases v <;> simp [jsizeV]

theorem jsizeL_pos (xs : List Json) : 1 ≤ jsizeL xs := by
  cases xs with
  | nil => simp [jsizeL]
  | cons x t => simp only [jsizeL]; omega

theorem jsizeM_pos (kvs : List (String × Json)) : 1 ≤ jsizeM kvs := by
  cases kvs with
  | nil => simp [jsizeM]
  | cons x t => simp only [jsizeM]; omega

set_option maxHeartbeats 1000000 in
theorem escChar_length_pos (c : Char) : 1 ≤ (escChar c).length := by
  simp only [escChar]
  split_ifs <;> simp [encodeU, hex4]

theorem escapeL_length_ge (s : List Char) : s.length ≤ (escapeL s).length := by
  induction s with
  | nil => simp [escapeL]
  | cons c cs ih =>
    rw [escapeL_cons]
    simp only [List.length_append, List.length_cons]
    have := escChar_length_pos c
    omega

theorem intToDec_length_pos (n : Int) : 1 ≤ (intToDec n).length := by
  unfold intToDec
  split_ifs
  · simp
  · have := natToDec_ne_nil n.natAbs
    cases he : natToDec n.natAbs with
    | nil => exact absurd he this
    | cons a b => simp [he]

mutual

theorem szV : ∀ (d : Nat) (v : Json), jsizeV v ≤ (dumpV d v).length
  | _, .null => by simp [jsizeV, dumpV]
  | _, .bool true => by simp [jsizeV, dumpV]
  | _, .bool false => by simp [jsizeV, dumpV]
  | d, .num n => by
    simpa [jsizeV, dumpV] using intToDec_length_pos n
  | _, .str s => by simp [jsizeV, dumpV]
  | _, .arr [] => by simp [jsizeV, jsizeL, dumpV]
  | d, .arr (x :: xs) => by
    have h1 := szV (d + 1) x
    have h2 := szL (d + 1) xs
    simp only [jsizeV, jsizeL, dumpV, List.length_cons, List.length_append]
    omega
  | _, .obj [] => by simp [jsizeV, jsizeM, dumpV]
  | d, .obj ((k, v) :: kvs) => by
    have h1 := szV (d + 1) v
    have h2 := szM (d + 1) kvs
    simp only [jsizeV, jsizeM, dumpV, dumpMember, List.length_cons, List.length_append]
    omega

theorem szL : ∀ (d : Nat) (xs : List Json), jsizeL xs ≤ (dumpElems d xs).length + 1
  | _, [] => by simp [jsizeL, dumpElems]
  | d, x :: xs => by
    have h1 := szV d x
    have h2 := szL d xs
    simp only [jsizeL, dumpElems, List.length_cons, List.length_append]
    omega

theorem szM : ∀ (d : Nat) (kvs : List (String × Json)),
    jsizeM kvs ≤ (dumpMembers d kvs).length + 1
  | _, [] => by simp [jsizeM, dumpMembers]
  | d, (k, v) :: kvs => by
    have h1 := szV d v
    have h2 := szM d kvs
    simp only [jsizeM, dumpMembers, dumpMember, List.length_cons, List.length_append]
    omega

end

/-! ## Auxiliary facts for the main round-trip -/
theorem not_digit_of_ws {c : Char} (h : isWsChar c = true) :
    isDigitChar c = false := by
  by_contra hd
  have hd' : isDigitChar c = true := by
    cases hdd : isDigitChar c
    · exact absurd hdd hd
    · rfl
  rw [not_ws_of_digit hd'] at h
  exact Bool.false_ne_true h

theorem string_mk_data (s : String) : String.mk s.data = s := rfl

/-- Every printed JSON value starts with a character that is neither
whitespace nor a closing bracket nor a closing brace. -/
theorem dumpV_head (d : Nat) (v : Json) :
    ∃ c t', dumpV d v = c :: t' ∧ isWsChar c = false ∧ c ≠ ']' ∧
      c ≠ Char.ofNat 125 := by
  cases v with
  | null => refine ⟨'n', _, rfl, ?_, ?_, ?_⟩ <;> decide
  | bool b =>
    cases b
    · refine ⟨'f', _, rfl, ?_, ?_, ?_⟩ <;> decide
    · refine ⟨'t', _, rfl, ?_, ?_, ?_⟩ <;> decide
  | num n =>
    by_cases hn : n < 0
    · exact ⟨'-', natToDec n.natAbs, by simp [dumpV, intToDec, hn], by decide,
        by decide, by decide⟩
    · cases he : natToDec n.natAbs with
      | nil => exact absurd he (natToDec_ne_nil n.natAbs)
      | cons a b =>
        have ha : isDigitChar a = true := natToDec_all_digits n.natAbs a (by rw [he]; simp)
        have ha' : isWsChar a = false := not_ws_of_digit ha
        refine ⟨a, b, by simp [dumpV, intToDec, hn, he], ha', ?_, ?_⟩
        · intro hb
          rw [hb] at ha
          exact absurd ha (by decide)
        · intro hb
          rw [hb] at ha
          exact absurd ha (by decide)
  | str s => refine ⟨'"', _, rfl, ?_, ?_, ?_⟩ <;> decide
  | arr xs =>
    cases xs
    · refine ⟨'[', _, rfl, ?_, ?_, ?_⟩ <;> decide
    · refine ⟨'[', _, rfl, ?_, ?_, ?_⟩ <;> decide
  | obj kvs =>
    cases kvs
    · refine ⟨Char.ofNat 123, _, rfl, ?_, ?_, ?_⟩ <;> decide
    · refine ⟨Char.ofNat 123, _, rfl, ?_, ?_, ?_⟩ <;> decide

/-! ## Stepping lemmas for `parseVal` -/
theorem parseVal_ws (f : Nat) (ws X : List Char)
    (h : ∀ c ∈ ws, isWsChar c = true) :
    parseVal (f + 1) (ws ++ X) = parseVal (f + 1) X := by
  simp only [parseVal]
  rw [skipWs_append_ws ws X h]

theorem pv_null (f : Nat) (r : List Char) :
    parseVal (f + 1) ('n' :: 'u' :: 'l' :: 'l' :: r) = some (.null, r) := rfl

theorem pv_true (f : Nat) (r : List Char) :
    parseVal (f + 1) ('t' :: 'r' :: 'u' :: 'e' :: r) = some (.bool true, r) := rfl

theorem pv_false (f : Nat) (r : List Char) :
    parseVal (f + 1) ('f' :: 'a' :: 'l' :: 's' :: 'e' :: r) =
      some (.bool false, r) := rfl

theorem pv_str (f : Nat) (t : List Char) :
    parseVal (f + 1) ('"' :: t) =
      (parseStrBody (t.length + 1) t).map
        (fun p => (Json.str (String.mk p.1), p.2)) := rfl

theorem pv_neg (f : Nat) (t : List Char) :
    parseVal (f + 1) ('-' :: t) =
      (parseNat t).map (fun p => (Json.num (-(p.1 : Int)), p.2)) := rfl

theorem pv_arr_nil (f : Nat) (r : List Char) :
    parseVal (f + 1) ('[' :: ']' :: r) = some (.arr [], r) := rfl

theorem pv_obj_nil (f : Nat) (r : List Char) :
    parseVal (f + 1) (Char.ofNat 123 :: Char.ofNat 125 :: r) =
      some (.obj [], r) := rfl

theorem pv_arr (f : Nat) (t : List Char) :
    parseVal (f + 1) ('[' :: t) =
      (match skipWs t with
       | c2 :: t2 =>
         if c2 = ']' then some (.arr [], t2)
         else (parseElemList f (skipWs t)).map (fun p => (Json.arr p.1, p.2))
       | [] => none) := rfl

theorem pv_obj (f : Nat) (t : List Char) :
    parseVal (f + 1) (Char.ofNat 123 :: t) =
      (match skipWs t with
       | c2 :: t2 =>
         if c2 = Char.ofNat 125 then some (.obj [], t2)
         else (parseMemberList f (skipWs t)).map (fun p => (Json.obj p.1, p.2))
       | [] => none) := rfl

theorem pv_digit (f : Nat) (c : Char) (t : List Char) (h : isDigitChar c = true) :
    parseVal (f + 1) (c :: t) =
      (parseNat (c :: t)).map (fun p => (Json.num (p.1 : Int), p.2)) := by
  have hb1 : c ≠ Char.ofNat 123 := fun he => by
    rw [he] at h; exact absurd h (by decide)
  have hb2 : c ≠ '[' := fun he => by
    rw [he] at h; exact absurd h (by decide)
  have hb3 : c ≠ '"' := fun he => by
    rw [he] at h; exact absurd h (by decide)
  have hb4 : c ≠ 't' := fun he => by
    rw [he] at h; exact absurd h (by decide)
  have hb5 : c ≠ 'f' := fun he => by
    rw [he] at h; exact absurd h (by decide)
  have hb6 : c ≠ 'n' := fun he => by
    rw [he] at h; exact absurd h (by decide)
  have hb7 : c ≠ '-' := fun he => by
    rw [he] at h; exact absurd h (by decide)
  simp only [parseVal]
  rw [skipWs_cons_not_ws t (not_ws_of_digit h)]
  show (if c = Char.ofNat 123 then _
    else if c = '[' then _
    else if c = '"' then _
    else if c = 't' then _
    else if c = 'f' then _
    else if c = 'n' then _
    else if c = '-' then _
    else (parseNat (c :: t)).map (fun p => (Json.num (p.1 : Int), p.2))) = _
  rw [if_neg hb1, if_neg hb2, if_neg hb3, if_neg hb4, if_neg hb5, if_neg hb6,
    if_neg hb7]

theorem ws_cons_ind (d : Nat) :
    ∀ c ∈ (Char.ofNat 10 :: ind d), isWsChar c = true := by
  intro c hc
  rcases List.mem_cons.1 hc with h | h
  · rw [h]; decide
  · exact ind_all_ws d c h

theorem headNotDigit_wsc (wsc : List Char) (c : Char) (r : List Char)
    (hwsc : ∀ x ∈ wsc, isWsChar x = true) (hc : isDigitChar c = false) :
    headNotDigit (wsc ++ c :: r) := by
  cases wsc with
  | nil => simpa [headNotDigit] using hc
  | cons w t =>
    simp only [List.cons_append, headNotDigit]
    exact not_digit_of_ws (hwsc w (by simp))

theorem headNotDigit_elems (d : Nat) (xs : List Json) (Z : List Char)
    (h : headNotDigit Z) : headNotDigit (dumpElems d xs ++ Z) := by
  cases xs with
  | nil => simpa [dumpElems]
  | cons y ys =>
    simp only [dumpElems, List.cons_append, headNotDigit]
    decide

theorem headNotDigit_members (d : Nat) (kvs : List (String × Json)) (Z : List Char)
    (h : headNotDigit Z) : headNotDigit (dumpMembers d kvs ++ Z) := by
  cases kvs with
  | nil => simpa [dumpMembers]
  | cons kv kvs =>
    simp only [dumpMembers, List.cons_append, headNotDigit]
    decide

/-! ## The main round-trip: `parseVal` inverts `dumpV` -/
theorem parse_rt : ∀ fuel : Nat,
    (∀ (v : Json) (d : Nat) (ws rest : List Char),
        (∀ c ∈ ws, isWsChar c = true) → headNotDigit rest → jsizeV v ≤ fuel →
        parseVal fuel (ws ++ (dumpV d v ++ rest)) = some (v, rest)) ∧
    (∀ (x : Json) (xs : List Json) (d : Nat) (ws wsc rest : List Char),
        (∀ c ∈ ws, isWsChar c = true) → (∀ c ∈ wsc, isWsChar c = true) →
        headNotDigit rest → jsizeL (x :: xs) ≤ fuel →
        parseElemList fuel
          (ws ++ (dumpV d x ++ (dumpElems d xs ++ (wsc ++ ']' :: rest)))) =
          some (x :: xs, rest)) ∧
    (∀ (k : String) (v : Json) (kvs : List (String × Json)) (d : Nat)
        (ws wsc rest : List Char),
        (∀ c ∈ ws, isWsChar c = true) → (∀ c ∈ wsc, isWsChar c = true) →
        headNotDigit rest → jsizeM ((k, v) :: kvs) ≤ fuel →
        parseMemberList fuel
          (ws ++ (dumpMember d (k, v) ++
            (dumpMembers d kvs ++ (wsc ++ Char.ofNat 125 :: rest)))) =
          some ((k, v) :: kvs, rest)) := by
  intro fuel
  induction fuel using Nat.strong_induction_on with
  | _ fuel IH =>
    match fuel with
    | 0 =>
      refine ⟨?_, ?_, ?_⟩
      · intro v d ws rest _ _ hsz
        have := jsizeV_pos v
        omega
      · intro x xs d ws wsc rest _ _ _ hsz
        have h1 := jsizeV_pos x
        have h2 := jsizeL_pos xs
        simp only [jsizeL] at hsz
        omega
      · intro k v kvs d ws wsc rest _ _ _ hsz
        have h1 := jsizeV_pos v
        have h2 := jsizeM_pos kvs
        simp only [jsizeM] at hsz
        omega
    | f + 1 =>
      have hlt : f < f + 1 := Nat.lt_succ_self f
      refine ⟨?_, ?_, ?_⟩
      -- Part A: parseVal inverts dumpV
      · intro v d ws rest hws hrest hsz
        rw [parseVal_ws f ws _ hws]
        cases v with
        | null => exact pv_null f rest
        | bool b =>
          cases b with
          | true => exact pv_true f rest
          | false => exact pv_false f rest
        | num n =>
          by_cases hn : n < 0
          · rw [show dumpV d (Json.num n) ++ rest =
                '-' :: (natToDec n.natAbs ++ rest) from by
              simp [dumpV, intToDec, hn]]
            rw [pv_neg f]
            rw [parseNat_rt n.natAbs rest hrest]
            simp only [Option.map_some']
            rw [show -((n.natAbs : Nat) : Int) = n from by omega]
          · cases hnd : natToDec n.natAbs with
            | nil => exact absurd hnd (natToDec_ne_nil _)
            | cons a b =>
              have ha : isDigitChar a = true :=
                natToDec_all_digits n.natAbs a (by rw [hnd]; simp)
              rw [show dumpV d (Json.num n) ++ rest = a :: (b ++ rest) from by
                simp [dumpV, intToDec, hn, hnd]]
              rw [pv_digit f a (b ++ rest) ha]
              rw [show a :: (b ++ rest) = natToDec n.natAbs ++ rest from by
                rw [hnd]; rfl]
              rw [parseNat_rt n.natAbs rest hrest]
              simp only [Option.map_some']
              rw [show ((n.natAbs : Nat) : Int) = n from by omega]
        | str s =>
          rw [show dumpV d (Json.str s) ++ rest =
              '"' :: (escapeL s.data ++ '"' :: rest) from by simp [dumpV]]
          rw [pv_str f]
          have hb : s.data.length + 1 ≤ (escapeL s.data ++ '"' :: rest).length + 1 := by
            have := escapeL_length_ge s.data
            simp only [List.length_append, List.length_cons]
            omega
          rw [parseStrBody_rt s.data _ rest hb]
          simp [string_mk_data]
        | arr xs =>
          cases xs with
          | nil => exact pv_arr_nil f rest
          | cons x xs =>
            rw [show dumpV d (Json.arr (x :: xs)) ++ rest =
                '[' :: (Char.ofNat 10 :: (ind (d + 1) ++ (dumpV (d + 1) x ++
                  (dumpElems (d + 1) xs ++
                    ((Char.ofNat 10 :: ind d) ++ ']' :: rest))))) from by
              simp [dumpV]]
            rw [pv_arr f]
            obtain ⟨c, t'', hd, hcws, hcbr, hcbr2⟩ := dumpV_head (d + 1) x
            have hskip : skipWs (Char.ofNat 10 :: (ind (d + 1) ++ (dumpV (d + 1) x ++
                (dumpElems (d + 1) xs ++ ((Char.ofNat 10 :: ind d) ++ ']' :: rest))))) =
                c :: (t'' ++ (dumpElems (d + 1) xs ++
                  ((Char.ofNat 10 :: ind d) ++ ']' :: rest))) := by
              rw [show (Char.ofNat 10 :: (ind (d + 1) ++ (dumpV (d + 1) x ++
                  (dumpElems (d + 1) xs ++ ((Char.ofNat 10 :: ind d) ++ ']' :: rest))))) =
                  (Char.ofNat 10 :: ind (d + 1)) ++ (dumpV (d + 1) x ++
                  (dumpElems (d + 1) xs ++ ((Char.ofNat 10 :: ind d) ++ ']' :: rest))) from by
                simp]
              rw [skipWs_append_ws _ _ (ws_cons_ind (d + 1))]
              rw [hd]
              rw [show (c :: t'') ++ (dumpElems (d + 1) xs ++
                  ((Char.ofNat 10 :: ind d) ++ ']' :: rest)) =
                  c :: (t'' ++ (dumpElems (d + 1) xs ++
                  ((Char.ofNat 10 :: ind d) ++ ']' :: rest))) from rfl]
              exact skipWs_cons_not_ws _ hcws
            rw [hskip]
            split
            · rename_i c2 t2 heq
              injection heq with hc2 ht2
              subst hc2
              subst ht2
              rw [if_neg hcbr]
              rw [show c :: (t'' ++ (dumpElems (d + 1) xs ++
                  ((Char.ofNat 10 :: ind d) ++ ']' :: rest))) =
                  dumpV (d + 1) x ++ (dumpElems (d + 1) xs ++
                  ((Char.ofNat 10 :: ind d) ++ ']' :: rest)) from by rw [hd]; rfl]
              have hB := (IH f hlt).2.1 x xs (d + 1) [] (Char.ofNat 10 :: ind d) rest
                (by intro c hc; simp at hc) (ws_cons_ind d) hrest
                (by simp only [jsizeV, jsizeL] at hsz ⊢; omega)
              simp only [List.nil_append] at hB
              rw [hB]
              rfl
            · rename_i heq
              exact absurd heq (by simp)
        | obj kvs =>
          cases kvs with
          | nil => exact pv_obj_nil f rest
          | cons kv kvs =>
            obtain ⟨k, v⟩ := kv
            rw [show dumpV d (Json.obj ((k, v) :: kvs)) ++ rest =
                Char.ofNat 123 :: (Char.ofNat 10 :: (ind (d + 1) ++
                  (dumpMember (d + 1) (k, v) ++ (dumpMembers (d + 1) kvs ++
                    ((Char.ofNat 10 :: ind d) ++ Char.ofNat 125 :: rest))))) from by
              simp [dumpV]]
            rw [pv_obj f]
            have hskip : skipWs (Char.ofNat 10 :: (ind (d + 1) ++
                (dumpMember (d + 1) (k, v) ++ (dumpMembers (d + 1) kvs ++
                  ((Char.ofNat 10 :: ind d) ++ Char.ofNat 125 :: rest))))) =
                '"' :: ((escapeL k.data ++ '"' :: ':' :: ' ' :: dumpV (d + 1) v) ++
                  (dumpMembers (d + 1) kvs ++
                  ((Char.ofNat 10 :: ind d) ++ Char.ofNat 125 :: rest))) := by
              rw [show (Char.ofNat 10 :: (ind (d + 1) ++
                  (dumpMember (d + 1) (k, v) ++ (dumpMembers (d + 1) kvs ++
                    ((Char.ofNat 10 :: ind d) ++ Char.ofNat 125 :: rest))))) =
                  (Char.ofNat 10 :: ind (d + 1)) ++
                  (dumpMember (d + 1) (k, v) ++ (dumpMembers (d + 1) kvs ++
                    ((Char.ofNat 10 :: ind d) ++ Char.ofNat 125 :: rest))) from by
                simp]
              rw [skipWs_append_ws _ _ (ws_cons_ind (d + 1))]
              rw [show dumpMember (d + 1) (k, v) =
                  '"' :: (escapeL k.data ++ '"' :: ':' :: ' ' :: dumpV (d + 1) v) from rfl]
              rw [show ('"' :: (escapeL k.data ++ '"' :: ':' :: ' ' :: dumpV (d + 1) v)) ++
                  (dumpMembers (d + 1) kvs ++
                    ((Char.ofNat 10 :: ind d) ++ Char.ofNat 125 :: rest)) =
                  '"' :: ((escapeL k.data ++ '"' :: ':' :: ' ' :: dumpV (d + 1) v) ++
                  (dumpMembers (d + 1) kvs ++
                    ((Char.ofNat 10 :: ind d) ++ Char.ofNat 125 :: rest))) from rfl]
              exact skipWs_cons_not_ws _ (by decide)
            rw [hskip]
            split
            · rename_i c2 t2 heq
              injection heq with hc2 ht2
              subst hc2
              subst ht2
              rw [if_neg (by decide)]
              rw [show '"' :: ((escapeL k.data ++ '"' :: ':' :: ' ' :: dumpV (d + 1) v) ++
                  (dumpMembers (d + 1) kvs ++
                  ((Char.ofNat 10 :: ind d) ++ Char.ofNat 125 :: rest))) =
                  dumpMember (d + 1) (k, v) ++ (dumpMembers (d + 1) kvs ++
                  ((Char.ofNat 10 :: ind d) ++ Char.ofNat 125 :: rest)) from by
                rw [show dumpMember (d + 1) (k, v) =
                  '"' :: (escapeL k.data ++ '"' :: ':' :: ' ' :: dumpV (d + 1) v) from rfl]
                rfl]
              have hC := (IH f hlt).2.2 k v kvs (d + 1) [] (Char.ofNat 10 :: ind d) rest
                (by intro c hc; simp at hc) (ws_cons_ind d) hrest
                (by simp only [jsizeV, jsizeM] at hsz ⊢; omega)
              simp only [List.nil_append] at hC
              rw [hC]
              rfl
            · rename_i heq
              exact absurd heq (by simp)
      -- Part B: parseElemList inverts a non-empty element list
      · intro x xs d ws wsc rest hws hwsc hrest hsz
        simp only [parseElemList]
        have hndR : headNotDigit (dumpElems d xs ++ (wsc ++ ']' :: rest)) :=
          headNotDigit_elems d xs _ (headNotDigit_wsc wsc ']' rest hwsc (by decide))
        have hA := (IH f hlt).1 x d ws (dumpElems d xs ++ (wsc ++ ']' :: rest)) hws hndR
          (by simp only [jsizeL] at hsz; have := jsizeL_pos xs; omega)
        rw [hA]
        split
        · rename_i v r heq
          rw [Option.some_inj, Prod.mk.injEq] at heq
          obtain ⟨hv, hr⟩ := heq
          subst hv
          subst hr
          cases xs with
          | nil =>
            rw [show dumpElems d ([] : List Json) ++ (wsc ++ ']' :: rest) =
                wsc ++ ']' :: rest from by simp [dumpElems]]
            rw [skipWs_append_ws _ _ hwsc, skipWs_cons_not_ws _ (by decide)]
            split
            · rename_i c2 t2 heq2
              injection heq2 with hc2 ht2
              subst hc2
              subst ht2
              rw [if_neg (by decide), if_pos rfl]
            · rename_i heq2
              exact absurd heq2 (by simp)
          | cons y ys =>
            rw [show dumpElems d (y :: ys) ++ (wsc ++ ']' :: rest) =
                ',' :: ((Char.ofNat 10 :: ind d) ++ (dumpV d y ++ (dumpElems d ys ++
                  (wsc ++ ']' :: rest)))) from by
              simp [dumpElems]]
            rw [skipWs_cons_not_ws _ (by decide)]
            split
            · rename_i c2 t2 heq2
              injection heq2 with hc2 ht2
              subst hc2
              subst ht2
              rw [if_pos rfl]
              have hB := (IH f hlt).2.1 y ys d (Char.ofNat 10 :: ind d) wsc rest
                (ws_cons_ind d) hwsc hrest
                (by simp only [jsizeL] at hsz ⊢; have := jsizeV_pos x; omega)
              rw [hB]
              rfl
            · rename_i heq2
              exact absurd heq2 (by simp)
        · rename_i heq
          exact absurd heq (by simp)
      -- Part C: parseMemberList inverts a non-empty member list
      · intro k v kvs d ws wsc rest hws hwsc hrest hsz
        simp only [parseMemberList]
        rw [skipWs_append_ws _ _ hws]
        rw [show dumpMember d (k, v) ++ (dumpMembers d kvs ++
            (wsc ++ Char.ofNat 125 :: rest)) =
            '"' :: (escapeL k.data ++ ('"' :: (':' :: (' ' :: (dumpV d v ++
              (dumpMembers d kvs ++ (wsc ++ Char.ofNat 125 :: rest))))))) from by
          rw [show dumpMember d (k, v) =
              '"' :: (escapeL k.data ++ '"' :: ':' :: ' ' :: dumpV d v) from rfl]
          simp]
        rw [skipWs_cons_not_ws _ (by decide)]
        split
        · rename_i c2 t2 heq
          injection heq with hc2 ht2
          subst hc2
          subst ht2
          rw [if_pos rfl]
          have hb : k.data.length + 1 ≤
              (escapeL k.data ++ ('"' :: (':' :: (' ' :: (dumpV d v ++
                (dumpMembers d kvs ++ (wsc ++ Char.ofNat 125 :: rest))))))).length + 1 := by
            have := escapeL_length_ge k.data
            simp only [List.length_append, List.length_cons]
            omega
          rw [parseStrBody_rt k.data _ _ hb]
          split
          · rename_i k2 t3 heq2
            rw [Option.some_inj, Prod.mk.injEq] at heq2
            obtain ⟨hk2, ht3⟩ := heq2
            subst hk2
            subst ht3
            rw [skipWs_cons_not_ws _ (by decide)]
            split
            · rename_i c3 t4 heq3
              injection heq3 with hc3 ht4
              subst hc3
              subst ht4
              rw [if_pos rfl]
              have hndR : headNotDigit (dumpMembers d kvs ++
                  (wsc ++ Char.ofNat 125 :: rest)) :=
                headNotDigit_members d kvs _
                  (headNotDigit_wsc wsc (Char.ofNat 125) rest hwsc (by decide))
              have hA := (IH f hlt).1 v d [' ']
                (dumpMembers d kvs ++ (wsc ++ Char.ofNat 125 :: rest))
                (by intro c hc; simp at hc; rw [hc]; decide) hndR
                (by simp only [jsizeM] at hsz; have := jsizeM_pos kvs; omega)
              rw [show (' ' :: (dumpV d v ++ (dumpMembers d kvs ++
                  (wsc ++ Char.ofNat 125 :: rest)))) =
                  [' '] ++ (dumpV d v ++ (dumpMembers d kvs ++
                  (wsc ++ Char.ofNat 125 :: rest))) from rfl]
              rw [hA]
              split
              · rename_i v2 t5 heq4
                rw [Option.some_inj, Prod.mk.injEq] at heq4
                obtain ⟨hv2, ht5⟩ := heq4
                subst hv2
                subst ht5
                cases kvs with
                | nil =>
                  rw [show dumpMembers d ([] : List (String × Json)) ++
                      (wsc ++ Char.ofNat 125 :: rest) =
                      wsc ++ Char.ofNat 125 :: rest from by simp [dumpMembers]]
                  rw [skipWs_append_ws _ _ hwsc, skipWs_cons_not_ws _ (by decide)]
                  split
                  · rename_i c4 t6 heq5
                    injection heq5 with hc4 ht6
                    subst hc4
                    subst ht6
                    rw [if_neg (by decide), if_pos rfl]
                  · rename_i heq5
                    exact absurd heq5 (by simp)
                | cons kv2 kvs2 =>
                  obtain ⟨k2, v2⟩ := kv2
                  rw [show dumpMembers d ((k2, v2) :: kvs2) ++
                      (wsc ++ Char.ofNat 125 :: rest) =
                      ',' :: ((Char.ofNat 10 :: ind d) ++ (dumpMember d (k2, v2) ++
                        (dumpMembers d kvs2 ++ (wsc ++ Char.ofNat 125 :: rest)))) from by
                    simp [dumpMembers]]
                  rw [skipWs_cons_not_ws _ (by decide)]
                  split
                  · rename_i c4 t6 heq5
                    injection heq5 with hc4 ht6
                    subst hc4
                    subst ht6
                    rw [if_pos rfl]
                    have hC := (IH f hlt).2.2 k2 v2 kvs2 d (Char.ofNat 10 :: ind d)
                      wsc rest (ws_cons_ind d) hwsc hrest
                      (by simp only [jsizeM] at hsz ⊢; have := jsizeV_pos v; omega)
                    rw [hC]
                    rw [string_mk_data]
                    rfl
                  · rename_i heq5
                    exact absurd heq5 (by simp)
              · rename_i heq4
                exact absurd heq4 (by simp)
            · rename_i heq3
              exact absurd heq3 (by simp)
          · rename_i heq2
            exact absurd heq2 (by simp)
        · rename_i heq
          exact absurd heq (by simp)

/-- `json.load` is a left inverse of `json.dump(..., indent=4)`: reloading a
file the monitor wrote yields exactly the value written, including object
key order. -/
theorem loads_dumps (v : Json) : loads (dumps v) = some v := by
  have h := (parse_rt ((dumps v).length + 1)).1 v 0 [] []
    (by intro c hc; simp at hc) trivial
    (by have := szV 0 v; simp only [dumps] at *; omega)
  simp only [List.nil_append, List.append_nil] at h
  simp only [loads, dumps] at h ⊢
  rw [h]
  rfl

/-! ## Claim C10: save/load round-trip -/
/-- C10: for every store value (in particular every `TimestampedSnapshot`
store), saving it with `save_json` and reloading it with `load_json`
yields an equal in-memory mapping; equality of `Json` objects includes the
insertion order of timestamp keys, so key order is preserved. -/
theorem save_json_load_json_round_trip (fs : FS) (p : String) (v : Json) :
    load_json (save_json fs p v) p = some v := by
  simp only [save_json, load_json, fsWrite, fsRead]
  rw [Assoc.lookup_set_self]
  exact loads_dumps v

/-! ## Claim C8: `load_json` behaviour -/
/-- C8 (amended): the generic loader returns the default empty mapping
when the file is absent; when the file exists it returns the parsed JSON
content — so it also returns an empty mapping for a present file that
parses to one, which is why "empty exactly when absent" fails — and a
present-but-malformed file raises an unhandled parse error (`none`), never
a silent empty default. -/
theorem load_json_spec (fs : FS) (p : String) :
    (fsRead fs p = none → load_json fs p = some (.obj [])) ∧
    (∀ c v, fsRead fs p = some c → loads c = some v → load_json fs p = some v) ∧
    (∀ c, fsRead fs p = some c → loads c = none → load_json fs p = none) ∧
    (load_json fs p = some (.obj []) ↔
      fsRead fs p = none ∨ ∃ c, fsRead fs p = some c ∧ loads c = some (.obj [])) := by
  refine ⟨?_, ?_, ?_, ?_⟩
  · intro h
    simp [load_json, h]
  · intro c v hc hv
    simp [load_json, hc, hv]
  · intro c hc hv
    simp [load_json, hc, hv]
  · cases hc : fsRead fs p with
    | none => simp [load_json, hc]
    | some c =>
      simp only [load_json, hc]
      constructor
      · intro h
        exact Or.inr ⟨c, rfl, h⟩
      · intro h
        rcases h with h | ⟨c', hc', hl⟩
        · exact absurd h (by simp)
        · rw [Option.some_inj] at hc'
          rw [hc']
          exact hl

/-- C8 counterexample to the claim as stated: a present file whose content
is the serialization of the empty mapping also makes the loader return an
empty mapping, so "returns an empty mapping exactly when the file is
absent" is false. -/
theorem load_json_empty_with_present_file :
    load_json { dirs := [], files := [("f.json", dumps (.obj []))] } "f.json" =
      some (.obj []) ∧
    fsRead { dirs := [], files := [("f.json", dumps (.obj []))] } "f.json" ≠ none := by
  constructor
  · decide
  · decide

/-- Witness for `load_json_spec`: a store with one well-formed file, one
malformed file, and an absent path. -/
theorem load_json_spec_witness :
    (load_json { dirs := [], files := [] } "a.json" = some (.obj [])) ∧
    (load_json { dirs := [], files := [("b.json", dumps (.num 7))] } "b.json" =
      some (.num 7)) ∧
    (load_json { dirs := [], files := [("c.json", ['['])] } "c.json" = none) :=
  ⟨(load_json_spec { dirs := [], files := [] } "a.json").1 (by decide),
   (load_json_spec { dirs := [], files := [("b.json", dumps (.num 7))] } "b.json").2.1
     (dumps (.num 7)) (.num 7) (by decide) (by decide),
   (load_json_spec { dirs := [], files := [("c.json", ['['])] } "c.json").2.2.1
     ['['] (by decide) (by decide)⟩

/-! ## Claim C7: profile-id mismatch is corrected, not escalated -/
/-- C7: when the cached profile-id file exists and holds an id different
from the freshly fetched one, `check_and_update_profile_id` overwrites the
file with the new id and raises no exception (the result is `some`, i.e.
the `except` re-raise path is not taken). -/
theorem check_and_update_profile_id_mismatch (u : String) (c s : Int) (fs : FS)
    (mm : List (String × Json))
    (hfile : fsRead fs (profileIdFilePath u) = some (dumps (.obj mm)))
    (hstored : Assoc.lookup mm "profile_id" = some (.num s))
    (hne : s ≠ c) :
    check_and_update_profile_id u c fs =
      some (fsWrite fs (profileIdFilePath u)
        (dumps (.obj [("profile_id", .num c)]))) := by
  have hex : fsExists fs (profileIdFilePath u) = true := by
    simp [fsExists, hfile]
  simp only [check_and_update_profile_id, hex, if_true, hfile, loads_dumps, hstored]
  have hnum : (Json.num s ≠ Json.num c) := by
    intro he
    injection he with h
    exact hne h
  simp [hnum, fetch_or_save_profile_id]

/-- Witness for the mismatch path: stored id 5, fresh id 6. -/
theorem check_and_update_profile_id_mismatch_witness :
    check_and_update_profile_id "u" 6
      { dirs := [], files := [("u_profile_id.json", dumps (.obj [("profile_id", .num 5)]))] } =
      some (fsWrite
        { dirs := [], files := [("u_profile_id.json", dumps (.obj [("profile_id", .num 5)]))] }
        (profileIdFilePath "u") (dumps (.obj [("profile_id", .num 6)]))) :=
  check_and_update_profile_id_mismatch "u" 6 5 _ [("profile_id", .num 5)]
    (by decide) (by decide) (by decide)

/-! ## Claim C9: profile-snapshot frame property -/
theorem lookup_append_single_ne {α : Type} (d : List (String × α)) (ts t : String)
    (v : α) (hts : ts ∉ Assoc.keys d) (h : t ≠ ts) :
    Assoc.lookup (d ++ [(ts, v)]) t = Assoc.lookup d t := by
  rw [← Assoc.set_append_of_not_mem d ts v hts]
  exact Assoc.lookup_set_ne d ts t v (fun he => h he.symm)

/-- C9 (amended): when the run timestamp is not already a key of the
in-memory snapshot store, `update_profile_info` appends exactly one entry
keyed by that timestamp — the record of follower/following counts, bio,
picture URL and the full follower/followee lists — and leaves the value
under every other timestamp key unchanged; when the timestamp is already
present its entry is overwritten in place (shown by the counterexample),
so the claim's universal "adds exactly one entry / nothing is rewritten"
only holds for fresh timestamps. -/
theorem update_profile_info_spec (u : String) (p : ProfileInfo) (st : MState)
    (eff : Effects) (ts : String) (d : List (String × Json))
    (hv sv : Json)
    (hd : st.data = .obj d) (hts : ts ∉ Assoc.keys d)
    (hh : st.downloaded_highlights = some hv)
    (hs : st.downloaded_stories = some sv) :
    ∃ st' eff',
      update_profile_info u p st eff ts = some (st', eff') ∧
      st'.data = .obj (d ++ [(ts, snapshotJson p)]) ∧
      Assoc.lookup (d ++ [(ts, snapshotJson p)]) ts = some (snapshotJson p) ∧
      (∀ t, t ≠ ts →
        Assoc.lookup (d ++ [(ts, snapshotJson p)]) t = Assoc.lookup d t) ∧
      Assoc.keys (d ++ [(ts, snapshotJson p)]) = Assoc.keys d ++ [ts] := by
  obtain ⟨l1, l2, dta, dh, ds⟩ := st
  simp only at hd hh hs
  subst hd
  subst hh
  subst hs
  refine ⟨_, _, rfl, ?_, ?_, ?_, ?_⟩
  · show Json.obj (Assoc.set d ts (snapshotJson p)) = _
    rw [Assoc.set_append_of_not_mem d ts _ hts]
  · rw [← Assoc.set_append_of_not_mem d ts _ hts]
    exact Assoc.lookup_set_self d ts _
  · intro t ht
    exact lookup_append_single_ne d ts t _ hts ht
  · rw [← Assoc.set_append_of_not_mem d ts _ hts]
    exact Assoc.keys_set_of_not_mem d ts _ hts

/-- C9 counterexample to the claim as stated: with a snapshot already
stored under the run timestamp, the operation rewrites that snapshot in
place — the store still has exactly one entry and the old record is gone —
contradicting "adds exactly one entry ... no previously stored snapshot is
deleted or rewritten" quantified over every store and timestamp. -/
theorem update_profile_info_rewrites_colliding_timestamp :
    ((update_profile_info "u" profW stWCollide effW "T").map (fun r => r.1.data)) =
      some (.obj [("T", snapshotJson profW)]) ∧
    Json.num 0 ≠ snapshotJson profW := by
  constructor
  · decide
  · decide

/-- Witness for `update_profile_info_spec` at a store with one prior entry
and a fresh timestamp. -/
theorem update_profile_info_spec_witness :
    ∃ st' eff',
      update_profile_info "u" profW stWFresh effW "T1" = some (st', eff') ∧
      st'.data = .obj ([("T0", Json.num 1)] ++ [("T1", snapshotJson profW)]) ∧
      Assoc.lookup ([("T0", Json.num 1)] ++ [("T1", snapshotJson profW)]) "T1" =
        some (snapshotJson profW) ∧
      (∀ t, t ≠ "T1" →
        Assoc.lookup ([("T0", Json.num 1)] ++ [("T1", snapshotJson profW)]) t =
          Assoc.lookup [("T0", Json.num 1)] t) ∧
      Assoc.keys ([("T0", Json.num 1)] ++ [("T1", snapshotJson profW)]) =
        Assoc.keys [("T0", Json.num 1)] ++ ["T1"] :=
  update_profile_info_spec "u" profW stWFresh effW "T1" [("T0", Json.num 1)]
    (.obj []) (.obj []) rfl (by decide) rfl rfl

/-! ## Claim C6: `ensureLayout` idempotence -/
theorem addDir_files (fs : FS) (d : String) : (addDir fs d).files = fs.files := by
  unfold addDir
  split <;> rfl

theorem mkdirP_files (l : List String) (fs : FS) : (mkdirP fs l).files = fs.files := by
  induction l generalizing fs with
  | nil => rfl
  | cons d t ih =>
    simp only [mkdirP, List.foldl_cons]
    rw [show (List.foldl addDir (addDir fs d) t) = mkdirP (addDir fs d) t from rfl]
    rw [ih (addDir fs d), addDir_files]

theorem addDir_dirs_mono (fs : FS) (d e : String) (h : e ∈ fs.dirs) :
    e ∈ (addDir fs d).dirs := by
  unfold addDir
  split
  · exact h
  · simp [h]

theorem mem_addDir_self (fs : FS) (d : String) : d ∈ (addDir fs d).dirs := by
  unfold addDir
  split
  · assumption
  · simp

theorem mkdirP_dirs_mono (l : List String) (fs : FS) (e : String) (h : e ∈ fs.dirs) :
    e ∈ (mkdirP fs l).dirs := by
  induction l generalizing fs with
  | nil => exact h
  | cons d t ih =>
    simp only [mkdirP, List.foldl_cons]
    exact ih (addDir fs d) (addDir_dirs_mono fs d e h)

theorem mem_mkdirP_of_mem (l : List String) (fs : FS) (d : String) (h : d ∈ l) :
    d ∈ (mkdirP fs l).dirs := by
  induction l generalizing fs with
  | nil => simp at h
  | cons x t ih =>
    rcases List.mem_cons.1 h with h1 | h1
    · subst h1
      simp only [mkdirP, List.foldl_cons]
      exact mkdirP_dirs_mono t (addDir fs d) d (mem_addDir_self fs d)
    · simp only [mkdirP, List.foldl_cons]
      exact ih (addDir fs x) h1

theorem addDir_of_mem (fs : FS) (d : String) (h : d ∈ fs.dirs) : addDir fs d = fs := by
  unfold addDir
  rw [if_pos h]

theorem mkdirP_of_all_mem (l : List String) (fs : FS)
    (h : ∀ d ∈ l, d ∈ fs.dirs) : mkdirP fs l = fs := by
  induction l with
  | nil => rfl
  | cons d t ih =>
    simp only [mkdirP, List.foldl_cons]
    rw [addDir_of_mem fs d (h d (by simp))]
    exact ih (fun x hx => h x (by simp [hx]))

theorem setup_metadata_file_dirs (u : String) (fs : FS) :
    (setup_metadata_file u fs).dirs = fs.dirs := by
  unfold setup_metadata_file
  split <;> rfl

theorem setup_dirs_files (u : String) (fs : FS) :
    (setup_dirs u fs).files = fs.files := by
  simp only [setup_dirs, mkdirP_files]

theorem fsRead_setup_dirs (u : String) (fs : FS) (p : String) :
    fsRead (setup_dirs u fs) p = fsRead fs p := by
  simp only [fsRead, setup_dirs, mkdirP_files]

theorem ensureLayout_idem (u : String) (fs : FS) :
    ensureLayout u (ensureLayout u fs) = ensureLayout u fs := by
  have hdirs : ∀ d, d ∈ (setup_dirs u fs).dirs →
      d ∈ (ensureLayout u fs).dirs := by
    intro d h
    rw [ensureLayout, setup_metadata_file_dirs]
    exact h
  have hall : ∀ d ∈ ["output", dataDir u, highlightsDirPath u],
      d ∈ (ensureLayout u fs).dirs := by
    intro d h
    apply hdirs
    simp only [setup_dirs]
    rcases List.mem_cons.1 h with h1 | h1
    · exact mkdirP_dirs_mono _ _ _ (mem_mkdirP_of_mem _ _ _ (by simp [h1]))
    · rcases List.mem_cons.1 h1 with h2 | h2
      · exact mkdirP_dirs_mono _ _ _ (mem_mkdirP_of_mem _ _ _ (by simp [h2]))
      · simp only [List.mem_singleton] at h2
        exact mkdirP_dirs_mono _ _ _ (mem_mkdirP_of_mem _ _ _ (by simp [h2]))
  have hall2 : ∀ d ∈ ["output", dataDir u, storiesDirPath u],
      d ∈ (ensureLayout u fs).dirs := by
    intro d h
    apply hdirs
    simp only [setup_dirs]
    rcases List.mem_cons.1 h with h1 | h1
    · exact mkdirP_dirs_mono _ _ _ (mem_mkdirP_of_mem _ _ _ (by simp [h1]))
    · rcases List.mem_cons.1 h1 with h2 | h2
      · exact mkdirP_dirs_mono _ _ _ (mem_mkdirP_of_mem _ _ _ (by simp [h2]))
      · simp only [List.mem_singleton] at h2
        exact mem_mkdirP_of_mem _ _ _ (by simp [h2])
  have hsd : setup_dirs u (ensureLayout u fs) = ensureLayout u fs := by
    unfold setup_dirs
    rw [mkdirP_of_all_mem _ _ hall, mkdirP_of_all_mem _ _ hall2]
  have hmd : fsExists (ensureLayout u fs) (metadataFilePath u) = true := by
    unfold ensureLayout setup_metadata_file
    split
    · rename_i h
      simp only [fsExists, fsRead] at h ⊢
      rw [setup_dirs_files]
      rw [setup_dirs_files] at h
      exact h
    · simp only [fsExists, fsRead, fsWrite]
      rw [Assoc.lookup_set_self]
      rfl
  show setup_metadata_file u (setup_dirs u (ensureLayout u fs)) = ensureLayout u fs
  rw [hsd]
  unfold setup_metadata_file
  rw [if_pos hmd]

/-- C6: invoking the layout setup (`setup_dirs` followed by
`setup_metadata_file`, as `__init__` does) any positive number of times
produces the same directory and file state as invoking it once; it never
truncates or overwrites any existing file; and when `metadata.json` is
absent it creates it containing exactly the serialization of
`initialMetadata`, i.e. the two-category empty skeleton. -/
theorem ensureLayout_spec (u : String) (fs : FS) :
    (∀ n : Nat, (ensureLayout u)^[n + 1] fs = ensureLayout u fs) ∧
    (∀ p c, fsRead fs p = some c → fsRead (ensureLayout u fs) p = some c) ∧
    (fsRead fs (metadataFilePath u) = none →
      fsRead (ensureLayout u fs) (metadataFilePath u) = some (dumps initialMetadata)) := by
  refine ⟨?_, ?_, ?_⟩
  · intro n
    induction n with
    | zero => rw [Function.iterate_one]
    | succ m ih =>
      rw [Function.iterate_succ_apply', ih, ensureLayout_idem]
  · intro p c hc
    unfold ensureLayout setup_metadata_file
    split
    · rw [fsRead_setup_dirs]
      exact hc
    · rename_i h
      have hne : p ≠ metadataFilePath u := by
        intro he
        subst he
        rw [fsExists, fsRead_setup_dirs, hc] at h
        simp at h
      simp only [fsRead, fsWrite]
      rw [Assoc.lookup_set_ne _ _ _ _ (fun he => hne he.symm)]
      rw [setup_dirs_files]
      exact hc
  · intro h
    unfold ensureLayout setup_metadata_file
    have hnx : fsExists (setup_dirs u fs) (metadataFilePath u) = false := by
      rw [fsExists, fsRead_setup_dirs, h]
      rfl
    rw [hnx]
    simp only [Bool.false_eq_true, if_false, fsRead, fsWrite]
    rw [Assoc.lookup_set_self]

/-- Witness for `ensureLayout_spec`: an on-disk state with one unrelated
non-empty file and no metadata file. -/
theorem ensureLayout_spec_witness :
    ((ensureLayout "u")^[2] { dirs := [], files := [("f", ['x'])] } =
      ensureLayout "u" { dirs := [], files := [("f", ['x'])] }) ∧
    (fsRead (ensureLayout "u" { dirs := [], files := [("f", ['x'])] }) "f" =
      some ['x']) ∧
    (fsRead (ensureLayout "u" { dirs := [], files := [("f", ['x'])] })
      (metadataFilePath "u") = some (dumps initialMetadata)) :=
  ⟨(ensureLayout_spec "u" { dirs := [], files := [("f", ['x'])] }).1 1,
   (ensureLayout_spec "u" { dirs := [], files := [("f", ['x'])] }).2.1 "f" ['x']
     (by decide),
   (ensureLayout_spec "u" { dirs := [], files := [("f", ['x'])] }).2.2 (by decide)⟩

theorem umf_spec (u : String) (eff : Effects) (cat : String)
    (meta : List (String × Json)) (ts : String) (eff' : Effects)
    (h : update_metadata_file u eff cat meta ts = some eff') :
    eff'.events = eff.events ++ [Event.metaWrite cat ts meta] ∧
    (∀ p, p ≠ metadataFilePath u → fsRead eff'.fs p = fsRead eff.fs p) := by
  simp only [update_metadata_file] at h
  split at h
  · exact absurd h (by simp)
  · split at h
    · exact absurd h (by simp)
    · split at h
      · exact absurd h (by simp)
      · rw [Option.some_inj] at h
        subst h
        refine ⟨rfl, ?_⟩
        intro p hp
        simp only [fsRead, fsWrite]
        exact Assoc.lookup_set_ne _ _ _ _ (fun he => hp he.symm)

theorem pushDownload_foldl (target : String) (items : List StoryItem) (eff : Effects) :
    items.foldl (fun e it => pushDownload e target it.mediaid) eff =
      { fs := eff.fs
        events := eff.events ++
          items.map (fun it => Event.downloadStoryItem target it.mediaid) } := by
  induction items generalizing eff with
  | nil => simp
  | cons it rest ih =>
    simp only [List.foldl_cons, List.map_cons]
    rw [ih]
    simp [pushDownload]

theorem dhwm_spec (u : String) (eff : Effects) (hl : Highlight) (ts : String)
    (eff' : Effects)
    (h : download_highlights_with_metadata u eff hl ts = some eff') :
    eff'.events = eff.events ++ hlEvents u ts hl ∧
    (∀ p, p ≠ metadataFilePath u → fsRead eff'.fs p = fsRead eff.fs p) := by
  simp only [download_highlights_with_metadata] at h
  rw [pushDownload_foldl] at h
  have h2 := umf_spec u _ _ _ _ _ h
  refine ⟨?_, h2.2⟩
  rw [h2.1]
  simp [hlEvents]

theorem dswm_spec (u : String) (eff : Effects) (s : Story) (ts : String)
    (eff' : Effects)
    (h : download_stories_with_metadata u eff s ts = some eff') :
    eff'.events = eff.events ++ stEvents u ts s ∧
    (∀ p, p ≠ metadataFilePath u → fsRead eff'.fs p = fsRead eff.fs p) := by
  simp only [download_stories_with_metadata] at h
  rw [pushDownload_foldl] at h
  have h2 := umf_spec u _ _ _ _ _ h
  refine ⟨?_, h2.2⟩
  rw [h2.1]
  simp [stEvents]

theorem dnhGo_spec (u ts : String) (ids : List Int) :
    ∀ (hs : List Highlight) (eff : Effects) (acc : List Int)
      (res : List Int × Effects),
      dnhGo u ids ts hs eff acc = some res →
      res.1 = acc ++
        (hs.filter (fun x => decide (x.unique_id ∉ ids))).map (fun x => x.unique_id) ∧
      res.2.events = eff.events ++
        (hs.filter (fun x => decide (x.unique_id ∉ ids))).flatMap (hlEvents u ts) ∧
      (∀ p, p ≠ metadataFilePath u → fsRead res.2.fs p = fsRead eff.fs p) := by
  intro hs
  induction hs with
  | nil =>
    intro eff acc res h
    simp only [dnhGo, Option.some_inj] at h
    subst h
    simp
  | cons hl rest ih =>
    intro eff acc res h
    simp only [dnhGo] at h
    by_cases hmem : hl.unique_id ∈ ids
    · rw [if_pos hmem] at h
      have := ih eff acc res h
      simpa [List.filter_cons, hmem] using this
    · rw [if_neg hmem] at h
      cases hc : download_highlights_with_metadata u eff hl ts with
      | none => rw [hc] at h; exact absurd h (by simp)
      | some eff1 =>
        rw [hc] at h
        obtain ⟨ih1, ih2, ih3⟩ := ih eff1 (acc ++ [hl.unique_id]) res h
        have hd := dhwm_spec u eff hl ts eff1 hc
        refine ⟨?_, ?_, ?_⟩
        · rw [ih1]
          simp [List.filter_cons, hmem]
        · rw [ih2, hd.1]
          simp [List.filter_cons, hmem]
        · intro p hp
          rw [ih3 p hp, hd.2 p hp]

/-- C2: for every known-id set and every candidate sequence, the highlight
reconciler's delta is exactly the ids of the candidates whose id is not
known, in enumeration order; the downloads and metadata writes performed
are exactly those of the kept candidates, in order; and no candidate with
a known id contributes to the delta while every candidate with an unknown
id does. -/
theorem download_new_highlights_delta (u : String) (st : MState) (eff : Effects)
    (hs : List Highlight) (ts : String) (res : List Int × Effects)
    (h : download_new_highlights u st eff hs ts = some res) :
    res.1 = (hs.filter
        (fun x => decide (x.unique_id ∉ st.downloaded_highlights_list))).map
        (fun x => x.unique_id) ∧
    res.2.events = eff.events ++
      (hs.filter
        (fun x => decide (x.unique_id ∉ st.downloaded_highlights_list))).flatMap
        (hlEvents u ts) ∧
    (∀ x ∈ hs, x.unique_id ∈ st.downloaded_highlights_list → x.unique_id ∉ res.1) ∧
    (∀ x ∈ hs, x.unique_id ∉ st.downloaded_highlights_list → x.unique_id ∈ res.1) := by
  have hg := dnhGo_spec u ts st.downloaded_highlights_list hs eff [] res h
  obtain ⟨h1, h2, _⟩ := hg
  simp only [List.nil_append] at h1
  refine ⟨h1, h2, ?_, ?_⟩
  · intro x hx hknown hcontra
    rw [h1] at hcontra
    rw [List.mem_map] at hcontra
    obtain ⟨y, hy, hid⟩ := hcontra
    rw [List.mem_filter] at hy
    have : y.unique_id ∉ st.downloaded_highlights_list := by
      simpa using hy.2
    rw [hid] at this
    exact this hknown
  · intro x hx hnew
    rw [h1]
    rw [List.mem_map]
    exact ⟨x, List.mem_filter.2 ⟨hx, by simpa using hnew⟩, rfl⟩

theorem dnsGo_spec (u ts : String) :
    ∀ (stories : List Story) (eff eff' : Effects),
      dnsGo u ts stories eff = some eff' →
      eff'.events = eff.events ++ stories.flatMap (stEvents u ts) ∧
      (∀ p, p ≠ metadataFilePath u → fsRead eff'.fs p = fsRead eff.fs p) := by
  intro stories
  induction stories with
  | nil =>
    intro eff eff' h
    simp only [dnsGo, Option.some_inj] at h
    subst h
    simp
  | cons s rest ih =>
    intro eff eff' h
    simp only [dnsGo] at h
    cases hc : download_stories_with_metadata u eff s ts with
    | none => rw [hc] at h; exact absurd h (by simp)
    | some eff1 =>
      rw [hc] at h
      obtain ⟨ih1, ih2⟩ := ih eff1 eff' h
      have hd := dswm_spec u eff s ts eff1 hc
      refine ⟨?_, ?_⟩
      · rw [ih1, hd.1]
        simp
      · intro p hp
        rw [ih2 p hp, hd.2 p hp]

/-- C4: the story phase performs no filtering: its result does not depend
on the instance state at all (in particular not on the previously loaded
downloaded-stories id list), and on success every enumerated story is
downloaded (each of its items) and gets a metadata-log write under the
run's shared timestamp, in enumeration order. -/
theorem download_new_stories_no_dedup :
    (∀ (u : String) (stA stB : MState) (eff : Effects) (stories : List Story)
        (ts : String),
      download_new_stories u stA eff stories ts =
        download_new_stories u stB eff stories ts) ∧
    (∀ (u : String) (st : MState) (eff : Effects) (stories : List Story)
        (ts : String) (res : List Int × Effects),
      download_new_stories u st eff stories ts = some res →
      res.2.events = eff.events ++ stories.flatMap (stEvents u ts) ∧
      (∀ s ∈ stories,
        Event.metaWrite "stories" ts (storiesMetadata s) ∈ res.2.events) ∧
      (∀ s ∈ stories, ∀ it ∈ s.items,
        Event.downloadStoryItem (storiesDirPath u) it.mediaid ∈ res.2.events)) := by
  constructor
  · intro u stA stB eff stories ts
    rfl
  · intro u st eff stories ts res h
    simp only [download_new_stories] at h
    cases hc : dnsGo u ts stories eff with
    | none => rw [hc] at h; exact absurd h (by simp)
    | some eff1 =>
      rw [hc] at h
      rw [Option.map_some', Option.some_inj] at h
      subst h
      obtain ⟨h1, _⟩ := dnsGo_spec u ts stories eff eff1 hc
      refine ⟨h1, ?_, ?_⟩
      · intro s hs
        rw [h1]
        rw [List.mem_append]
        right
        rw [List.mem_flatMap]
        exact ⟨s, hs, by simp [stEvents]⟩
      · intro s hs it hit
        rw [h1]
        rw [List.mem_append]
        right
        rw [List.mem_flatMap]
        refine ⟨s, hs, ?_⟩
        simp only [stEvents, List.mem_append, List.mem_map]
        exact Or.inl ⟨it, hit, rfl⟩

/-- Witness for `download_new_highlights_delta`: known ids `[101]`,
candidates with ids 101 and 102; the delta is `[102]`. -/
theorem download_new_highlights_delta_witness :
    resW2.1 = ([hlA, hlB].filter
      (fun x => decide (x.unique_id ∉ stKnown.downloaded_highlights_list))).map
      (fun x => x.unique_id) ∧
    resW2.2.events = effMeta.events ++
      ([hlA, hlB].filter
        (fun x => decide (x.unique_id ∉ stKnown.downloaded_highlights_list))).flatMap
        (hlEvents "u" "T") :=
  (fun h => ⟨h.1, h.2.1⟩)
    (download_new_highlights_delta "u" stKnown effMeta [hlA, hlB] "T" resW2
      (by decide))

/-- Witness for `download_new_stories_no_dedup`: the result ignores the
known-story-id list entirely and the single enumerated story is logged. -/
theorem download_new_stories_no_dedup_witness :
    (download_new_stories "u" stKnown effMeta [stG] "T" =
      download_new_stories "u" initState effMeta [stG] "T") ∧
    resW4.2.events = effMeta.events ++ [stG].flatMap (stEvents "u" "T") :=
  ⟨download_new_stories_no_dedup.1 "u" stKnown initState effMeta [stG] "T",
   (download_new_stories_no_dedup.2 "u" initState effMeta [stG] "T" resW4
     (by decide)).1⟩

/-! ## Path distinctness -/
theorem string_append_cancel_left (a b c : String) (h : a ++ b = a ++ c) :
    b = c := by
  have hd := congrArg String.data h
  simp only [String.data_append] at hd
  have := List.append_cancel_left hd
  cases b
  cases c
  simp only at this
  rw [this]

theorem path_ne (u x y : String) (h : x ≠ y) :
    (dataDir u ++ x) ≠ (dataDir u ++ y) :=
  fun he => h (string_append_cancel_left (dataDir u) x y he)

theorem stories_ne_meta (u : String) : storiesFilePath u ≠ metadataFilePath u :=
  path_ne u "/stories/downloaded_stories.json" "/metadata.json" (by decide)

theorem stories_ne_data (u : String) : dataFilePath u ≠ storiesFilePath u :=
  path_ne u "/data.json" "/stories/downloaded_stories.json" (by decide)

theorem highlights_ne_stories (u : String) :
    highlightsFilePath u ≠ storiesFilePath u :=
  path_ne u "/highlights/downloaded_highlights.json"
    "/stories/downloaded_stories.json" (by decide)

theorem fsRead_ensureLayout_ne (u : String) (fs : FS) (p : String)
    (hp : p ≠ metadataFilePath u) :
    fsRead (ensureLayout u fs) p = fsRead fs p := by
  unfold ensureLayout setup_metadata_file
  split
  · rw [fsRead_setup_dirs]
  · simp only [fsRead, fsWrite]
    rw [Assoc.lookup_set_ne _ _ _ _ (fun he => hp he.symm)]
    rw [setup_dirs_files]

/-! ## Claim C5: story ids are never recorded as downloaded -/
/-- C5: `download_new_stories` returns the empty list for every input (its
accumulator is never appended to), so a complete run of a fresh
orchestrator leaves the in-memory downloaded-stories id list empty and
rewrites `downloaded_stories.json` with exactly the value it held before
the run (the default empty mapping when the file was absent): no story id
is ever recorded as downloaded. -/
theorem stories_never_recorded :
    (∀ (u : String) (st : MState) (eff : Effects) (stories : List Story)
        (ts : String) (res : List Int × Effects),
      download_new_stories u st eff stories ts = some res → res.1 = []) ∧
    (∀ (u : String) (prov : Provider) (fs : FS) (ts : String) (st' : MState)
        (eff' : Effects),
      monitorRun u prov fs ts = some (st', eff') →
      st'.downloaded_stories_list = [] ∧
      (∀ c v, fsRead fs (storiesFilePath u) = some c → loads c = some v →
        fsRead eff'.fs (storiesFilePath u) = some (dumps v)) ∧
      (fsRead fs (storiesFilePath u) = none →
        fsRead eff'.fs (storiesFilePath u) = some (dumps (Json.obj [])))) := by
  have part1 : ∀ (u : String) (st : MState) (eff : Effects) (stories : List Story)
      (ts : String) (res : List Int × Effects),
      download_new_stories u st eff stories ts = some res → res.1 = [] := by
    intro u st eff stories ts res h
    simp only [download_new_stories] at h
    cases hc : dnsGo u ts stories eff with
    | none => rw [hc] at h; exact absurd h (by simp)
    | some eff1 =>
      rw [hc, Option.map_some', Option.some_inj] at h
      rw [← h]
  refine ⟨part1, ?_⟩
  intro u prov fs ts st' eff' h
  simp only [monitorRun, initMonitor] at h
  simp only [run_monitor, bind] at h
  simp only [Option.bind_eq_some] at h
  obtain ⟨st1, hst1, r1, hr1, eff2, heff2, r2, hr2, eff3, heff3, res4, hres4, hfin⟩ := h
  simp only [load_data, bind, Option.bind_eq_some] at hst1
  obtain ⟨d, hd, hv, hhv, sv, hsv, hst1eq⟩ := hst1
  rw [Option.some_inj] at hst1eq
  rw [Option.some_inj] at hfin
  have hr2nil : r2.1 = [] := part1 _ _ _ _ _ _ hr2
  -- the value written back for downloaded_stories is exactly the loaded one
  simp only [update_profile_info] at hres4
  split at hres4
  · rename_i dd hdd
    -- st3.data is an object; save_data succeeds with the loaded attributes
    rw [← hst1eq] at hdd
    simp only at hdd
    simp only [save_data, ← hst1eq, Option.map_eq_some'] at hres4
    obtain ⟨eff4, heff4, hres4eq⟩ := hres4
    rw [Option.some_inj] at heff4
    have hwrite : eff4.fs = save_json (save_json (save_json eff3.fs (dataFilePath u)
        (Json.obj (Assoc.set dd ts (snapshotJson prov.profile))))
        (highlightsFilePath u) hv) (storiesFilePath u) sv := by
      rw [← heff4]
    rw [Prod.mk.injEq] at hfin
    have hsteq2 : st' = res4.1 := hfin.1.symm
    have heff'eq : eff'.fs = res4.2.fs := by
      rw [← hfin.2]
    have hdsl : st'.downloaded_stories_list = [] := by
      rw [hsteq2, ← hres4eq]
      simp only [← hst1eq, hr2nil]
      rfl
    have hfsfinal : fsRead eff'.fs (storiesFilePath u) = some (dumps sv) := by
      rw [heff'eq, ← hres4eq]
      simp only [hwrite, save_json, fsWrite, fsRead]
      exact Assoc.lookup_set_self _ _ _
    -- relate the loaded value sv to the pre-run file content
    have hload : load_json (mkdirP (ensureLayout u fs) ["output", dataDir u])
        (storiesFilePath u) = some sv := hsv
    have hreadpre : fsRead (mkdirP (ensureLayout u fs) ["output", dataDir u])
        (storiesFilePath u) = fsRead fs (storiesFilePath u) := by
      simp only [fsRead, mkdirP_files]
      rw [show Assoc.lookup (ensureLayout u fs).files (storiesFilePath u) =
          fsRead (ensureLayout u fs) (storiesFilePath u) from rfl]
      exact fsRead_ensureLayout_ne u fs _ (stories_ne_meta u)
    refine ⟨hdsl, ?_, ?_⟩
    · intro c v hc hvv
      have hlc : load_json (mkdirP (ensureLayout u fs) ["output", dataDir u])
          (storiesFilePath u) = loads c := by
        simp only [load_json]
        rw [hreadpre, hc]
      rw [hlc, hvv, Option.some_inj] at hload
      rw [hfsfinal, hload]
    · intro habs
      have hlc : load_json (mkdirP (ensureLayout u fs) ["output", dataDir u])
          (storiesFilePath u) = some (Json.obj []) := by
        simp only [load_json]
        rw [hreadpre, habs]
      rw [hlc, Option.some_inj] at hload
      rw [hfsfinal, hload]
  · exact absurd hres4 (by simp)

set_option maxHeartbeats 8000000 in
theorem run1_eval : monitorRun "u" provG fsEmpty "T1" = some (st1C, ⟨fs1C, ev1C⟩) := by
  decide

set_option maxHeartbeats 8000000 in
theorem run2_eval :
    (monitorRun "u" provG fs1C "T2").map (fun r2 =>
      (r2.1.downloaded_highlights_list, (r2.2.events.filter isHLMetaWrite).length)) =
    some ([101, 102], 2) := by
  decide

/-- Witness for `stories_never_recorded`: the concrete scenario run from an
empty store; the stories file was absent before the run and holds the
serialization of the empty mapping afterwards. -/
theorem stories_never_recorded_witness :
    (resW4.1 = []) ∧
    (st1C.downloaded_stories_list = [] ∧
      (∀ c v, fsRead fsEmpty (storiesFilePath "u") = some c → loads c = some v →
        fsRead fs1C (storiesFilePath "u") = some (dumps v)) ∧
      (fsRead fsEmpty (storiesFilePath "u") = none →
        fsRead fs1C (storiesFilePath "u") = some (dumps (Json.obj [])))) := by
  constructor
  · exact stories_never_recorded.1 "u" stKnown effMeta [stG] "T" resW4 (by decide)
  · exact stories_never_recorded.2 "u" provG fsEmpty "T1" st1C ⟨fs1C, ev1C⟩ run1_eval

/-- C1 (evaluation of the code at the failing input): after a first
successful run that downloaded highlights 101 and 102, the persisted
known-highlight-id file contains the serialization of the empty mapping —
the collected ids were never persisted — and a second run of a fresh
orchestrator against the same store recomputes the full delta
`[101, 102]` and performs two highlight metadata writes, contradicting the
claimed empty delta with no highlight download or metadata write. -/
theorem highlight_dedup_broken_across_runs :
    ((monitorRun "u" provG fsEmpty "T1").map (fun r1 =>
      (r1.1.downloaded_highlights_list,
        fsRead r1.2.fs (highlightsFilePath "u"))) =
      some ([101, 102], some (dumps (Json.obj [])))) ∧
    ((monitorRun "u" provG fsEmpty "T1").bind (fun r1 =>
      (monitorRun "u" provG r1.2.fs "T2").map (fun r2 =>
        (r2.1.downloaded_highlights_list,
          (r2.2.events.filter isHLMetaWrite).length))) =
      some ([101, 102], 2)) := by
  constructor
  · rw [run1_eval]
    rw [Option.map_some']
    rfl
  · rw [run1_eval]
    rw [Option.some_bind]
    exact run2_eval

/-! ## C3: the metadata-log update (`update_metadata_file`, lines 111-121)

The in-memory merge is as described (ensure a sub-dict at
`metadata[category_key][timestamp]`, then dict-`update` with last-write-wins
per key), but the file rewrite opens with `"r+"`, seeks to 0 and dumps
without truncating: the persisted content is the new serialization followed
by whatever tail of the previous content extends beyond it.  It equals the
serialization of the merged log exactly when the new serialization is at
least as long as the prior content. -/
theorem lookup_update_of_none {α : Type} (e : List (String × α)) (k : String) :
    ∀ d, Assoc.lookup e k = none →
      Assoc.lookup (Assoc.update d e) k = Assoc.lookup d k := by
  induction e with
  | nil => intro d _; rfl
  | cons hd t ih =>
    obtain ⟨k0, v0⟩ := hd
    intro d h
    by_cases hk : k0 = k
    · subst hk
      simp [Assoc.lookup] at h
    · simp only [Assoc.lookup, if_neg hk] at h
      have hu : Assoc.update d ((k0, v0) :: t) =
          Assoc.update (Assoc.set d k0 v0) t := rfl
      rw [hu, ih (Assoc.set d k0 v0) h, Assoc.lookup_set_ne d k0 k v0 hk]

theorem lookup_update_of_some {α : Type} (e : List (String × α)) (k : String)
    (v : α) :
    ∀ d, (Assoc.keys e).Nodup → Assoc.lookup e k = some v →
      Assoc.lookup (Assoc.update d e) k = some v := by
  induction e with
  | nil => intro d _ h; simp [Assoc.lookup] at h
  | cons hd t ih =>
    obtain ⟨k0, v0⟩ := hd
    intro d hnd h
    rw [Assoc.keys_cons, List.nodup_cons] at hnd
    have hu : Assoc.update d ((k0, v0) :: t) =
        Assoc.update (Assoc.set d k0 v0) t := rfl
    by_cases hk : k0 = k
    · subst hk
      simp [Assoc.lookup] at h
      subst h
      have ht : Assoc.lookup t k0 = none :=
        Assoc.lookup_eq_none_of_not_mem t k0 hnd.1
      rw [hu, lookup_update_of_none t k0 (Assoc.set d k0 v0) ht,
        Assoc.lookup_set_self]
    · simp only [Assoc.lookup, if_neg hk] at h
      rw [hu]
      exact ih (Assoc.set d k0 v0) hnd.2 h

theorem update_append_of_disjoint {α : Type} (e : List (String × α)) :
    ∀ d : List (String × α), (Assoc.keys e).Nodup →
      (∀ k ∈ Assoc.keys e, k ∉ Assoc.keys d) → Assoc.update d e = d ++ e := by
  induction e with
  | nil => intro d _ _; simp [Assoc.update]
  | cons hd t ih =>
    obtain ⟨k0, v0⟩ := hd
    intro d hnd hdisj
    rw [Assoc.keys_cons, List.nodup_cons] at hnd
    have h0 : k0 ∉ Assoc.keys d :=
      hdisj k0 (by rw [Assoc.keys_cons]; exact List.mem_cons_self _ _)
    have hdisj' : ∀ k ∈ Assoc.keys t, k ∉ Assoc.keys (d ++ [(k0, v0)]) := by
      intro k hk hin
      rw [Assoc.keys_append, List.mem_append] at hin
      rcases hin with hin | hin
      · have hmem : k ∈ Assoc.keys ((k0, v0) :: t) := by
          rw [Assoc.keys_cons]
          exact List.mem_cons_of_mem _ hk
        exact hdisj k hmem hin
      · have hkk : k = k0 := by simpa [Assoc.keys] using hin
        exact hnd.1 (hkk ▸ hk)
    have hu : Assoc.update d ((k0, v0) :: t) =
        Assoc.update (Assoc.set d k0 v0) t := rfl
    rw [hu, Assoc.set_append_of_not_mem d k0 v0 h0,
      ih (d ++ [(k0, v0)]) hnd.2 hdisj']
    simp

theorem set_set {α : Type} (l : List (String × α)) (k : String) (v v' : α) :
    Assoc.set (Assoc.set l k v) k v' = Assoc.set l k v' := by
  induction l with
  | nil => simp [Assoc.set]
  | cons hd t ih =>
    obtain ⟨k0, v0⟩ := hd
    by_cases hk : k0 = k
    · subst hk
      simp [Assoc.set]
    · simp [Assoc.set, hk, ih]

theorem not_mem_keys_of_lookup_eq_none {α : Type} (l : List (String × α))
    (k : String) (h : Assoc.lookup l k = none) : k ∉ Assoc.keys l := by
  intro hm
  induction l with
  | nil => simp [Assoc.keys] at hm
  | cons hd t ih =>
    obtain ⟨k0, v0⟩ := hd
    by_cases hk : k0 = k
    · subst hk
      simp [Assoc.lookup] at h
    · simp only [Assoc.lookup, if_neg hk] at h
      rw [Assoc.keys_cons, List.mem_cons] at hm
      rcases hm with hm | hm
      · exact hk hm.symm
      · exact ih h hm

theorem fsRead_fsWrite_self (fs : FS) (p : String) (c : List Char) :
    fsRead (fsWrite fs p c) p = some c := by
  simp [fsRead, fsWrite, Assoc.lookup_set_self]

theorem dumpMembers_append (d : Nat) (l1 l2 : List (String × Json)) :
    dumpMembers d (l1 ++ l2) = dumpMembers d l1 ++ dumpMembers d l2 := by
  induction l1 with
  | nil => rfl
  | cons kv t ih => simp [dumpMembers, ih]

theorem two_le_dumpV_obj (d : Nat) (l : List (String × Json)) :
    2 ≤ (dumpV d (.obj l)).length := by
  cases l with
  | nil => simp [dumpV]
  | cons kv kvs =>
    simp only [dumpV, List.length_cons, List.length_append]
    omega

theorem dumpMembers_length_set (d : Nat) (l : List (String × Json)) (k : String)
    (v v' : Json) (hl : Assoc.lookup l k = some v)
    (hlen : (dumpV d v).length ≤ (dumpV d v').length) :
    (dumpMembers d l).length ≤ (dumpMembers d (Assoc.set l k v')).length := by
  induction l with
  | nil => simp [Assoc.lookup] at hl
  | cons hd t ih =>
    obtain ⟨k0, v0⟩ := hd
    by_cases hk : k0 = k
    · subst hk
      simp [Assoc.lookup] at hl
      subst hl
      have hset : Assoc.set ((k0, v0) :: t) k0 v' = (k0, v') :: t := by
        simp [Assoc.set]
      rw [hset]
      simp only [dumpMembers, dumpMember, List.length_cons, List.length_append]
      omega
    · simp only [Assoc.lookup, if_neg hk] at hl
      have hset : Assoc.set ((k0, v0) :: t) k v' =
          (k0, v0) :: Assoc.set t k v' := by
        simp [Assoc.set, hk]
      rw [hset]
      simp only [dumpMembers, List.length_cons, List.length_append]
      have := ih hl
      omega

theorem dumpV_obj_length_set (d : Nat) (l : List (String × Json)) (k : String)
    (v v' : Json) (hl : Assoc.lookup l k = some v)
    (hlen : (dumpV (d + 1) v).length ≤ (dumpV (d + 1) v').length) :
    (dumpV d (.obj l)).length ≤ (dumpV d (.obj (Assoc.set l k v'))).length := by
  cases l with
  | nil => simp [Assoc.lookup] at hl
  | cons hd t =>
    obtain ⟨k0, v0⟩ := hd
    by_cases hk : k0 = k
    · subst hk
      simp [Assoc.lookup] at hl
      subst hl
      have hset : Assoc.set ((k0, v0) :: t) k0 v' = (k0, v') :: t := by
        simp [Assoc.set]
      rw [hset]
      simp only [dumpV, dumpMember, List.length_cons, List.length_append]
      omega
    · simp only [Assoc.lookup, if_neg hk] at hl
      have hset : Assoc.set ((k0, v0) :: t) k v' =
          (k0, v0) :: Assoc.set t k v' := by
        simp [Assoc.set, hk]
      rw [hset]
      simp only [dumpV, List.length_cons, List.length_append]
      have := dumpMembers_length_set (d + 1) t k v v' hl hlen
      omega

theorem dumpV_obj_length_append (d : Nat) (l l2 : List (String × Json)) :
    (dumpV d (.obj l)).length ≤ (dumpV d (.obj (l ++ l2))).length := by
  cases l with
  | nil =>
    have h2 := two_le_dumpV_obj d l2
    simpa [dumpV] using h2
  | cons kv kvs =>
    rw [List.cons_append]
    simp only [dumpV, dumpMembers_append, List.length_cons, List.length_append]
    omega

theorem dumpV_obj_length_set_fresh (d : Nat) (l : List (String × Json))
    (k : String) (v' : Json) (hl : k ∉ Assoc.keys l) :
    (dumpV d (.obj l)).length ≤ (dumpV d (.obj (Assoc.set l k v'))).length := by
  rw [Assoc.set_append_of_not_mem l k v' hl]
  exact dumpV_obj_length_append d l [(k, v')]

theorem overwriteFrom0_eq_of_le (old new : List Char)
    (h : old.length ≤ new.length) : overwriteFrom0 old new = new := by
  simp [overwriteFrom0, List.drop_eq_nil_of_le h]

theorem overwriteFrom0_eq_iff (old new : List Char) :
    overwriteFrom0 old new = new ↔ old.length ≤ new.length := by
  constructor
  · intro h
    have h2 := congrArg List.length h
    simp only [overwriteFrom0, List.length_append, List.length_drop] at h2
    omega
  · exact overwriteFrom0_eq_of_le old new

/-- One `update_metadata_file` call on a readable, parseable metadata file
whose log contains the category: the write always happens, producing
`overwriteFrom0 content (dumps merged)` — the `seek(0)`-without-`truncate`
file image. -/
theorem umf_single (u : String) (eff : Effects) (cat ts : String)
    (newm : List (String × Json)) (content : List Char)
    (m catMap entry : List (String × Json))
    (h1 : fsRead eff.fs (metadataFilePath u) = some content)
    (h2 : loads content = some (.obj m))
    (h3 : Assoc.lookup m cat = some (.obj catMap))
    (h4 : Assoc.lookup catMap ts = some (.obj entry) ∨
      (Assoc.lookup catMap ts = none ∧ entry = [])) :
    update_metadata_file u eff cat newm ts =
      some { fs := fsWrite eff.fs (metadataFilePath u)
               (overwriteFrom0 content (dumps (.obj (Assoc.set m cat (.obj
                 (Assoc.set (if (Assoc.lookup catMap ts).isSome then catMap
                             else Assoc.set catMap ts (.obj []))
                   ts (.obj (Assoc.update entry newm))))))))
             events := eff.events ++ [Event.metaWrite cat ts newm] } := by
  rcases h4 with hts | ⟨hts, he⟩
  · rw [hts]
    simp only [Option.isSome_some, reduceIte]
    have hUL : updateLog (.obj m) cat newm ts =
        some (.obj (Assoc.set m cat (.obj (Assoc.set catMap ts
          (.obj (Assoc.update entry newm)))))) := by
      simp only [updateLog, h3, hts, Option.isSome_some, reduceIte]
    simp only [update_metadata_file, h1, h2, hUL]
  · subst he
    rw [hts]
    simp only [Option.isSome_none, Bool.false_eq_true, if_false]
    have hUL : updateLog (.obj m) cat newm ts =
        some (.obj (Assoc.set m cat (.obj (Assoc.set
          (Assoc.set catMap ts (.obj [])) ts
          (.obj (Assoc.update [] newm)))))) := by
      simp only [updateLog, h3, hts, Option.isSome_none, Bool.false_eq_true,
        if_false, Assoc.lookup_set_self]
    simp only [update_metadata_file, h1, h2, hUL]

/-- One `update_metadata_file` call starting from a file that holds exactly
a serialized log, with the new entry's keys fresh for the existing
timestamp entry: the update only adds characters, so the persisted file is
exactly the serialization of the merged log. -/
theorem umf_step (u : String) (eff : Effects) (cat ts : String)
    (newm m catMap entry : List (String × Json))
    (h1 : fsRead eff.fs (metadataFilePath u) = some (dumps (.obj m)))
    (h3 : Assoc.lookup m cat = some (.obj catMap))
    (h4 : Assoc.lookup catMap ts = some (.obj entry) ∨
      (Assoc.lookup catMap ts = none ∧ entry = []))
    (hnd : (Assoc.keys newm).Nodup)
    (hdj : ∀ k ∈ Assoc.keys newm, k ∉ Assoc.keys entry) :
    update_metadata_file u eff cat newm ts =
      some { fs := fsWrite eff.fs (metadataFilePath u)
               (dumps (.obj (Assoc.set m cat
                 (.obj (Assoc.set catMap ts (.obj (entry ++ newm)))))))
             events := eff.events ++ [Event.metaWrite cat ts newm] } := by
  have hupd : Assoc.update entry newm = entry ++ newm :=
    update_append_of_disjoint newm entry hnd hdj
  rcases h4 with hts | ⟨hts, he⟩
  · have hc := umf_single u eff cat ts newm (dumps (.obj m)) m catMap entry h1
      (loads_dumps _) h3 (Or.inl hts)
    rw [hts] at hc
    simp only [Option.isSome_some, reduceIte] at hc
    rw [hupd] at hc
    have hmono : (dumps (.obj m)).length ≤
        (dumps (.obj (Assoc.set m cat
          (.obj (Assoc.set catMap ts (.obj (entry ++ newm))))))).length :=
      dumpV_obj_length_set 0 m cat _ _ h3
        (dumpV_obj_length_set 1 catMap ts _ _ hts
          (dumpV_obj_length_append 2 entry newm))
    rw [overwriteFrom0_eq_of_le _ _ hmono] at hc
    exact hc
  · subst he
    have hc := umf_single u eff cat ts newm (dumps (.obj m)) m catMap [] h1
      (loads_dumps _) h3 (Or.inr ⟨hts, rfl⟩)
    rw [hts] at hc
    simp only [Option.isSome_none, Bool.false_eq_true, if_false] at hc
    rw [set_set, hupd, List.nil_append] at hc
    have hfresh : ts ∉ Assoc.keys catMap :=
      not_mem_keys_of_lookup_eq_none catMap ts hts
    have hmono : (dumps (.obj m)).length ≤
        (dumps (.obj (Assoc.set m cat
          (.obj (Assoc.set catMap ts (.obj newm)))))).length :=
      dumpV_obj_length_set 0 m cat _ _ h3
        (dumpV_obj_length_set_fresh 1 catMap ts _ hfresh)
    rw [overwriteFrom0_eq_of_le _ _ hmono] at hc
    simp only [List.nil_append]
    exact hc

/-- C3 (counterexample): updating the `k` entry of `metadata["highlights"]["T"]`
from a long string to the empty string merges correctly in memory, but the
rewrite seeks to offset 0 without truncating, so the persisted file content
is the stale-tailed `overwriteFrom0` image, which differs from the
serialization of the merged log — "the persisted file content is exactly
the serialization of the merged log" is false. -/
theorem update_metadata_file_stale_tail :
    updateLog m0C3 "highlights" [("k", Json.str "")] "T" = some mergedC3 ∧
    (update_metadata_file "u" effC3 "highlights" [("k", Json.str "")] "T").map
        (fun e => fsRead e.fs (metadataFilePath "u")) =
      some (some (overwriteFrom0 (dumps m0C3) (dumps mergedC3))) ∧
    overwriteFrom0 (dumps m0C3) (dumps mergedC3) ≠ dumps mergedC3 := by
  refine ⟨by decide, by decide, by decide⟩

/-- **C3**: for every readable, parseable prior metadata-log content whose
log contains the category, `update_metadata_file` ensures a sub-mapping at
`log[category][timestamp]`, merges the new entry's keys into it with
last-write-wins per key, leaves every other timestamp entry unchanged, and
rewrites the file from offset 0 without truncating — the persisted content
is `overwriteFrom0 content (dumps merged)`, which equals the serialization
of the merged log exactly when that serialization is at least as long as
the prior content.  Starting from a file holding exactly a serialized log,
two calls with the same category and timestamp and pairwise-fresh key sets
persist an entry whose keys are the union of the existing keys and the two
new key sets. -/
theorem update_metadata_file_spec :
    (∀ (u : String) (eff : Effects) (cat ts : String)
        (newm : List (String × Json)) (content : List Char)
        (m catMap entry : List (String × Json)),
      fsRead eff.fs (metadataFilePath u) = some content →
      loads content = some (.obj m) →
      Assoc.lookup m cat = some (.obj catMap) →
      (Assoc.lookup catMap ts = some (.obj entry) ∨
        (Assoc.lookup catMap ts = none ∧ entry = [])) →
      (Assoc.keys newm).Nodup →
      ∃ catMap' : List (String × Json),
        update_metadata_file u eff cat newm ts =
          some { fs := fsWrite eff.fs (metadataFilePath u)
                   (overwriteFrom0 content
                     (dumps (.obj (Assoc.set m cat (.obj catMap')))))
                 events := eff.events ++ [Event.metaWrite cat ts newm] } ∧
        Assoc.lookup catMap' ts = some (.obj (Assoc.update entry newm)) ∧
        (∀ ts', ts' ≠ ts →
          Assoc.lookup catMap' ts' = Assoc.lookup catMap ts') ∧
        (∀ k v, Assoc.lookup newm k = some v →
          Assoc.lookup (Assoc.update entry newm) k = some v) ∧
        (∀ k, Assoc.lookup newm k = none →
          Assoc.lookup (Assoc.update entry newm) k = Assoc.lookup entry k) ∧
        (overwriteFrom0 content (dumps (.obj (Assoc.set m cat (.obj catMap')))) =
            dumps (.obj (Assoc.set m cat (.obj catMap'))) ↔
          content.length ≤
            (dumps (.obj (Assoc.set m cat (.obj catMap')))).length)) ∧
    (∀ (u : String) (eff : Effects) (cat ts : String)
        (new1 new2 m catMap entry : List (String × Json)),
      fsRead eff.fs (metadataFilePath u) = some (dumps (.obj m)) →
      Assoc.lookup m cat = some (.obj catMap) →
      (Assoc.lookup catMap ts = some (.obj entry) ∨
        (Assoc.lookup catMap ts = none ∧ entry = [])) →
      (Assoc.keys new1).Nodup →
      (Assoc.keys new2).Nodup →
      (∀ k ∈ Assoc.keys new1, k ∉ Assoc.keys entry) →
      (∀ k ∈ Assoc.keys new2, k ∉ Assoc.keys entry ++ Assoc.keys new1) →
      ∃ eff1 eff2 : Effects, ∃ m2 catMap2 : List (String × Json),
        update_metadata_file u eff cat new1 ts = some eff1 ∧
        update_metadata_file u eff1 cat new2 ts = some eff2 ∧
        fsRead eff2.fs (metadataFilePath u) = some (dumps (.obj m2)) ∧
        Assoc.lookup m2 cat = some (.obj catMap2) ∧
        Assoc.lookup catMap2 ts = some (.obj (entry ++ new1 ++ new2)) ∧
        Assoc.keys (entry ++ new1 ++ new2) =
          Assoc.keys entry ++ Assoc.keys new1 ++ Assoc.keys new2) := by
  constructor
  · intro u eff cat ts newm content m catMap entry h1 h2 h3 h4 hnd
    refine ⟨Assoc.set (if (Assoc.lookup catMap ts).isSome then catMap
        else Assoc.set catMap ts (.obj [])) ts (.obj (Assoc.update entry newm)),
      umf_single u eff cat ts newm content m catMap entry h1 h2 h3 h4,
      Assoc.lookup_set_self _ _ _, ?_,
      fun k v hv => lookup_update_of_some newm k v entry hnd hv,
      fun k hv => lookup_update_of_none newm k entry hv,
      overwriteFrom0_eq_iff _ _⟩
    intro ts' hne
    rw [Assoc.lookup_set_ne _ ts ts' _ (fun he => hne he.symm)]
    rcases h4 with hts | ⟨hts, _⟩
    · rw [hts]
      simp only [Option.isSome_some, reduceIte]
    · rw [hts]
      simp only [Option.isSome_none, Bool.false_eq_true, if_false]
      exact Assoc.lookup_set_ne catMap ts ts' _ (fun he => hne he.symm)
  · intro u eff cat ts new1 new2 m catMap entry h1 h3 h4 hnd1 hnd2 hdj1 hdj2
    have hc1 := umf_step u eff cat ts new1 m catMap entry h1 h3 h4 hnd1 hdj1
    have hr1 : fsRead (fsWrite eff.fs (metadataFilePath u)
        (dumps (.obj (Assoc.set m cat
          (.obj (Assoc.set catMap ts (.obj (entry ++ new1)))))))) 
        (metadataFilePath u) =
        some (dumps (.obj (Assoc.set m cat
          (.obj (Assoc.set catMap ts (.obj (entry ++ new1))))))) :=
      fsRead_fsWrite_self _ _ _
    have hdj2' : ∀ k ∈ Assoc.keys new2, k ∉ Assoc.keys (entry ++ new1) := by
      intro k hk
      rw [Assoc.keys_append]
      exact hdj2 k hk
    have hc2 := umf_step u
      { fs := fsWrite eff.fs (metadataFilePath u)
          (dumps (.obj (Assoc.set m cat
            (.obj (Assoc.set catMap ts (.obj (entry ++ new1)))))))
        events := eff.events ++ [Event.metaWrite cat ts new1] }
      cat ts new2 (Assoc.set m cat (.obj (Assoc.set catMap ts (.obj (entry ++ new1)))))
      (Assoc.set catMap ts (.obj (entry ++ new1))) (entry ++ new1)
      hr1 (Assoc.lookup_set_self _ _ _)
      (Or.inl (Assoc.lookup_set_self _ _ _)) hnd2 hdj2'
    refine ⟨_, _,
      Assoc.set (Assoc.set m cat (.obj (Assoc.set catMap ts (.obj (entry ++ new1)))))
        cat (.obj (Assoc.set (Assoc.set catMap ts (.obj (entry ++ new1))) ts
          (.obj ((entry ++ new1) ++ new2)))),
      Assoc.set (Assoc.set catMap ts (.obj (entry ++ new1))) ts
        (.obj ((entry ++ new1) ++ new2)),
      hc1, hc2, fsRead_fsWrite_self _ _ _, Assoc.lookup_set_self _ _ _, ?_, ?_⟩
    · exact Assoc.lookup_set_self _ _ _
    · simp [Assoc.keys_append]

/-- C3 witness: both parts of `update_metadata_file_spec` applied at a
concrete store, category `highlights`, timestamp `T`, and singleton fresh
entries. -/
theorem update_metadata_file_spec_witness :
    (∃ catMap' : List (String × Json),
      update_metadata_file "u" effW3 "highlights" [("a", Json.num 1)] "T" =
        some { fs := fsWrite effW3.fs (metadataFilePath "u")
                 (overwriteFrom0 (dumps (.obj mW3))
                   (dumps (.obj (Assoc.set mW3 "highlights" (.obj catMap')))))
               events := effW3.events ++
                 [Event.metaWrite "highlights" "T" [("a", Json.num 1)]] } ∧
      Assoc.lookup catMap' "T" =
        some (.obj (Assoc.update [] [("a", Json.num 1)])) ∧
      (∀ ts', ts' ≠ "T" →
        Assoc.lookup catMap' ts' = Assoc.lookup ([] : List (String × Json)) ts') ∧
      (∀ k v, Assoc.lookup [("a", Json.num 1)] k = some v →
        Assoc.lookup (Assoc.update [] [("a", Json.num 1)]) k = some v) ∧
      (∀ k, Assoc.lookup [("a", Json.num 1)] k = none →
        Assoc.lookup (Assoc.update [] [("a", Json.num 1)]) k =
          Assoc.lookup ([] : List (String × Json)) k) ∧
      (overwriteFrom0 (dumps (.obj mW3))
          (dumps (.obj (Assoc.set mW3 "highlights" (.obj catMap')))) =
          dumps (.obj (Assoc.set mW3 "highlights" (.obj catMap'))) ↔
        (dumps (.obj mW3)).length ≤
          (dumps (.obj (Assoc.set mW3 "highlights" (.obj catMap')))).length)) ∧
    (∃ eff1 eff2 : Effects, ∃ m2 catMap2 : List (String × Json),
      update_metadata_file "u" effW3 "highlights" [("a", Json.num 1)] "T" =
        some eff1 ∧
      update_metadata_file "u" eff1 "highlights" [("b", Json.num 2)] "T" =
        some eff2 ∧
      fsRead eff2.fs (metadataFilePath "u") = some (dumps (.obj m2)) ∧
      Assoc.lookup m2 "highlights" = some (.obj catMap2) ∧
      Assoc.lookup catMap2 "T" =
        some (.obj (([] : List (String × Json)) ++ [("a", Json.num 1)] ++
          [("b", Json.num 2)])) ∧
      Assoc.keys (([] : List (String × Json)) ++ [("a", Json.num 1)] ++
          [("b", Json.num 2)]) =
        Assoc.keys ([] : List (String × Json)) ++
          Assoc.keys [("a", Json.num 1)] ++ Assoc.keys [("b", Json.num 2)]) := by
  constructor
  · exact update_metadata_file_spec.1 "u" effW3 "highlights" "T"
      [("a", Json.num 1)] (dumps (.obj mW3)) mW3 [] [] (by decide) (by decide)
      (by decide) (Or.inr ⟨by decide, rfl⟩) (by decide)
  · exact update_metadata_file_spec.2 "u" effW3 "highlights" "T"
      [("a", Json.num 1)] [("b", Json.num 2)] mW3 [] [] (by decide) (by decide)
      (Or.inr ⟨by decide, rfl⟩) (by decide) (by decide) (by decide) (by decide)
